import Mathlib

/-!
Verification of the gettext catalog parser and CLDR plural-rule compiler
(`golocalization`). Go source files are embedded shallowly: machine strings
become `String`/`List Char`, `shopspring/decimal` values become a
mantissa/exponent pair over `Int`, fallible functions return explicit result
types, and Go panics become an explicit `panics` outcome. Definitions mirror
the Go source structure; deviations (and parts of the repository that are
referenced but whose source is not available, which are modelled from the
specification) are noted on each definition.
-/

set_option linter.dupNamespace false

namespace gettext

/-! ## Character helpers -/

/-- The RE2 character class `\s`, i.e. `[\t\n\f\r ]`, used by the line-parse
regular expression in `Line.go`. -/
def goIsSpace (c : Char) : Bool :=
  c = ' ' || c = '\t' || c = '\n' || c = '\x0c' || c = '\r'

/-- ASCII letter test; stands in for `unicode.IsLetter` (the inputs exercised
by this development are ASCII). -/
def isAsciiLetter (c : Char) : Bool :=
  ('a' ≤ c && c ≤ 'z') || ('A' ≤ c && c ≤ 'Z')

def isDigitChar (c : Char) : Bool := '0' ≤ c && c ≤ '9'

def isOctalChar (c : Char) : Bool := '0' ≤ c && c ≤ '7'

/-- The character class `[0-9a-f]` of the `\xHH` escape in `LineValue.go`
(lower-case hex only). -/
def isLowerHex (c : Char) : Bool :=
  ('0' ≤ c && c ≤ '9') || ('a' ≤ c && c ≤ 'f')

def digitVal (c : Char) : Nat := c.toNat - '0'.toNat

/-- Split a character list on a separator character (every occurrence, like
`strings.Split` with a one-character separator). -/
def splitOnChar (sep : Char) : List Char → List (List Char)
  | [] => [[]]
  | c :: rest =>
    if c = sep then [] :: splitOnChar sep rest
    else
      match splitOnChar sep rest with
      | [] => [[c]]
      | g :: gs => (c :: g) :: gs

def asciiLowerChar (c : Char) : Char :=
  if 'A' ≤ c && c ≤ 'Z' then Char.ofNat (c.toNat + 32) else c

/-- ASCII lower-casing; stands in for `strings.ToLower` on the ASCII inputs
exercised here. -/
def asciiLower (cs : List Char) : List Char := cs.map asciiLowerChar

/-- The ASCII part of `unicode.IsSpace`, used by `strings.TrimSpace`. -/
def isTrimSpace (c : Char) : Bool :=
  c = ' ' || c = '\t' || c = '\n' || c = '\x0b' || c = '\x0c' || c = '\r'

def trimSpace (cs : List Char) : List Char :=
  ((cs.dropWhile isTrimSpace).reverse.dropWhile isTrimSpace).reverse

def hexVal (c : Char) : Nat :=
  if c ≤ '9' then c.toNat - '0'.toNat else c.toNat - 'a'.toNat + 10

/-- Lower-case hex digit, as produced by Go `fmt.Sprintf` with the `x` verb. -/
def hexDigitChar (n : Nat) : Char :=
  if n < 10 then Char.ofNat ('0'.toNat + n) else Char.ofNat ('a'.toNat + (n - 10))

/-- `strconv.ParseInt(s, base, 8)` ignores its range error and returns the
maximum magnitude `int8` value (127) on overflow, which `LineValue.go` then
converts to a rune. -/
def clampInt8 (n : Nat) : Nat := if n > 127 then 127 else n

def natOfDigits (ds : List Char) : Nat :=
  ds.foldl (fun acc c => acc * 10 + digitVal c) 0

/-! ## Escape codec (`LineValue.go`)

`valueStringParser` is built from the Go interpreted string
`"\a|\b|\x1b|\f|\n|\r|\t|\v|\\|\"|[\x00-\x1f]"`. The two-character Go escape
`\\` denotes a single backslash in the regex text, so the regex contains the
alternation branch `\|` — an *escaped pipe*. Consequently the regex matches a
literal `|` (whose replacement falls into the panicking default branch, since
`|` is not a control character) and never matches a backslash (so the `case
"\\"` arm of the Go switch is unreachable). `escChar` reproduces this
composite behaviour character by character; every branch of the regex matches
exactly one character. -/

/-- One replacement step of `LineValueFromValue`; `none` models the Go panic
"Somehow matched a non-control character" hit on `|`. -/
def escChar (c : Char) : Option (List Char) :=
  if c = '\x07' then some ['\\', 'a']
  else if c = '\x08' then some ['\\', 'b']
  else if c = '\x1b' then some ['\\', 'e']
  else if c = '\x0c' then some ['\\', 'f']
  else if c = '\n' then some ['\\', 'n']
  else if c = '\r' then some ['\\', 'r']
  else if c = '\t' then some ['\\', 't']
  else if c = '\x0b' then some ['\\', 'v']
  else if c = '|' then none
  else if c = '"' then some ['\\', '"']
  else if c.toNat < 32 then
    some ['\\', 'x', hexDigitChar (c.toNat / 16), hexDigitChar (c.toNat % 16)]
  else some [c]

/-- `valueStringParser.ReplaceAllStringFunc` over the whole value. -/
def escapeChars : List Char → Option (List Char)
  | [] => some []
  | c :: cs => do pure ((← escChar c) ++ (← escapeChars cs))

/-- `rawStringParser.ReplaceAllStringFunc` of `LineValueFromRaw`: leftmost
scan for `\\(a|b|e|f|n|r|t|v|\\|'|"|\?|[0-7]{3}|x[0-9a-f]{2}|.)`. A `\` that
cannot start a match (lone `\` at end of input, or `\` before a newline, which
`.` does not match) passes through unchanged; an unmatched escape such as
`\8` reaches the panicking default of the Go replacement function (`none`);
`\x` not followed by two lower-case hex digits is matched by the final `.`
alternative, whose handler calls `strconv.ParseInt` on an empty string and
yields the rune 0. -/
def unescapeEsc (rec : List Char → Option (List Char)) : List Char → Option (List Char)
  | [] => some ['\\']
  | c2 :: t2 =>
    if c2 = 'a' then (fun r => '\x07' :: r) <$> rec t2
    else if c2 = 'b' then (fun r => '\x08' :: r) <$> rec t2
    else if c2 = 'e' then (fun r => '\x1b' :: r) <$> rec t2
    else if c2 = 'f' then (fun r => '\x0c' :: r) <$> rec t2
    else if c2 = 'n' then (fun r => '\n' :: r) <$> rec t2
    else if c2 = 'r' then (fun r => '\r' :: r) <$> rec t2
    else if c2 = 't' then (fun r => '\t' :: r) <$> rec t2
    else if c2 = 'v' then (fun r => '\x0b' :: r) <$> rec t2
    else if c2 = '\\' then (fun r => '\\' :: r) <$> rec t2
    else if c2 = '\'' then (fun r => '\'' :: r) <$> rec t2
    else if c2 = '"' then (fun r => '"' :: r) <$> rec t2
    else if c2 = '?' then (fun r => '?' :: r) <$> rec t2
    else if c2 = 'x' then
      match t2 with
      | h1 :: h2 :: t3 =>
        if isLowerHex h1 && isLowerHex h2 then
          (fun r => Char.ofNat (clampInt8 (hexVal h1 * 16 + hexVal h2)) :: r) <$> rec t3
        else (fun r => Char.ofNat 0 :: r) <$> rec (h1 :: h2 :: t3)
      | t2' => (fun r => Char.ofNat 0 :: r) <$> rec t2'
    else if isOctalChar c2 then
      match t2 with
      | d2 :: d3 :: t3 =>
        if isOctalChar d2 && isOctalChar d3 then
          (fun r =>
            Char.ofNat (clampInt8 ((digitVal c2 * 8 + digitVal d2) * 8 + digitVal d3)) :: r) <$>
            rec t3
        else none
      | _ => none
    else if c2 = '\n' then (fun r => '\\' :: r) <$> rec (c2 :: t2)
    else none

def unescapeGo : Nat → List Char → Option (List Char)
  | _, [] => some []
  | 0, _ :: _ => none
  | fuel + 1, c :: t =>
    if c = '\\' then unescapeEsc (unescapeGo fuel) t
    else (fun r => c :: r) <$> unescapeGo fuel t

/-- The replacement scan, with enough fuel for the whole input (each unit of
fuel accounts for at least one consumed character). -/
def unescapeChars (cs : List Char) : Option (List Char) :=
  unescapeGo cs.length cs

/-! ## Line data model (`Keyword.go`, `Line.go`, `LineValue.go`) -/

structure Keyword where
  IsEmpty : Bool
  Keyword : String
  Index : Nat
  IsIndexed : Bool
deriving DecidableEq, Repr

def SimpleKeyword (keyword : String) : Keyword :=
  { IsEmpty := false, Keyword := keyword, Index := 0, IsIndexed := false }

def IndexedKeyword (keyword : String) (index : Nat) : Keyword :=
  { IsEmpty := false, Keyword := keyword, Index := index, IsIndexed := true }

def emptyKeyword : Keyword :=
  { IsEmpty := true, Keyword := "", Index := 0, IsIndexed := false }

structure LineValue where
  IsEmpty : Bool
  Raw : String
  Value : String
deriving DecidableEq, Repr

def emptyLineValue : LineValue := { IsEmpty := true, Raw := "", Value := "" }

/-- `LineValueFromRaw`; `none` models the panic of the replacement function on
an invalid escape sequence. Note the produced value has `IsEmpty = false`
even when `raw` is empty (the Go zero value of the field). -/
def LineValueFromRaw (raw : String) : Option LineValue :=
  (unescapeChars raw.data).map fun v => { IsEmpty := false, Raw := raw, Value := String.mk v }

/-- `LineValueFromValue`; `none` models the panic on `|`. -/
def LineValueFromValue (value : String) : Option LineValue :=
  (escapeChars value.data).map fun r => { IsEmpty := false, Raw := String.mk r, Value := value }

structure Comment where
  IsEmpty : Bool
  Comment : String
deriving DecidableEq, Repr

def emptyComment : Comment := { IsEmpty := true, Comment := "" }

structure Line where
  Keyword : Keyword
  Value : LineValue
  Comment : Comment
  RawLine : String
  IsCommentOrWhiteSpace : Bool
  IsWhiteSpace : Bool
  IsComment : Bool
  IsMarkedObsolete : Bool
deriving DecidableEq, Repr

/-- The Go zero value `Line{}` (returned alongside errors). -/
def zeroLine : Line :=
  { Keyword := { IsEmpty := false, Keyword := "", Index := 0, IsIndexed := false }
    Value := { IsEmpty := false, Raw := "", Value := "" }
    Comment := { IsEmpty := false, Comment := "" }
    RawLine := ""
    IsCommentOrWhiteSpace := false, IsWhiteSpace := false
    IsComment := false, IsMarkedObsolete := false }

/-- `populateExtraBools`: derives the classification flags. `none` models the
index-out-of-range panic of `line.Comment.Comment[0]` when the line is
comment-only with empty comment text (Go `&&` short-circuits, so the index is
only read when `IsComment` holds). -/
def populateExtraBools (kw : Keyword) (v : LineValue) (c : Comment) (raw : String) :
    Option Line :=
  let icw := kw.IsEmpty && v.IsEmpty
  let iws := icw && c.IsEmpty
  let ic := icw && !c.IsEmpty
  if ic then
    match c.Comment.data with
    | [] => none
    | ch :: _ =>
      some { Keyword := kw, Value := v, Comment := c, RawLine := raw
             IsCommentOrWhiteSpace := icw, IsWhiteSpace := iws, IsComment := ic
             IsMarkedObsolete := decide (ch = '~') }
  else
    some { Keyword := kw, Value := v, Comment := c, RawLine := raw
           IsCommentOrWhiteSpace := icw, IsWhiteSpace := iws, IsComment := ic
           IsMarkedObsolete := false }

/-- `CompleteLine`: rebuilds the raw source text from the parts. Note the Go
code writes `lineValue.Value` (the unescaped value), not `lineValue.Raw`,
between the quotes. `none` models the `populateExtraBools` panic. -/
def CompleteLine (keyword : Keyword) (lineValue : LineValue) (comment : Comment) :
    Option Line :=
  let raw :=
    (if !keyword.IsEmpty then
      keyword.Keyword
        ++ (if keyword.IsIndexed then "[" ++ toString keyword.Index ++ "]" else "")
        ++ (if !lineValue.IsEmpty || !comment.IsEmpty then " " else "")
     else "")
    ++ (if !lineValue.IsEmpty then
          "\"" ++ lineValue.Value ++ "\"" ++ (if !comment.IsEmpty then " " else "")
        else "")
    ++ (if !comment.IsEmpty then "#" ++ comment.Comment else "")
  populateExtraBools keyword lineValue comment raw

/-! ## Entry data model (`EntryHeader` file and `ParseEntry` file) -/

structure EntryHeader where
  References : List String
  Flags : List String
deriving DecidableEq, Repr

/-- Modelled from the spec: `EntryKey` is the `(context, id)` pair of an
entry; its definition is referenced by `FinishCurrentEntry` but its source is
not among the provided files. -/
structure EntryKey where
  Context : String
  Id : String
deriving DecidableEq, Repr

structure Entry where
  Header : EntryHeader
  IsObsolete : Bool
  Context : String
  Id : String
  Value : String
  PluralId : String
  PluralValues : List String
  Lines : List Line
  /-- Modelled from the spec: the `(context, id)` pair used for duplicate
  detection; not among the provided source files. -/
  EntryKey : EntryKey
  /-- Modelled from the spec: true when the entry carries a `msgctxt` line;
  read by `CreateHeaderFromEntry`, not among the provided source files. -/
  IsContextual : Bool
deriving DecidableEq, Repr

/-- `ExtractEntryHeader`: collects reference/flag comments from the leading
comment/whitespace run. The Go code pre-sizes `references` with
`make([]string, len(headerComments))` and then *appends*, so the result keeps
the leading empty strings; this quirk is reproduced. -/
def ExtractEntryHeader (lines : List Line) : EntryHeader :=
  let headerComments :=
    ((lines.takeWhile fun l => l.IsCommentOrWhiteSpace && !l.IsMarkedObsolete).filter
      (fun l => l.IsComment)).map fun l => l.Comment.Comment
  let references :=
    List.replicate headerComments.length ""
      ++ (headerComments.filter fun c => c.data.head? = some ':').map
          fun c => String.mk (trimSpace (c.data.drop 1))
  let flags :=
    match (headerComments.filter fun c => c.data.head? = some ',').getLast? with
    | none => []
    | some c =>
      ((splitOnChar ',' c.data).filter fun f => f.length ≠ 0).map
        fun f => String.mk (trimSpace f)
  { References := references, Flags := flags }

/-! ## Error model

One sum type covers every Go error type of the document pipeline; a separate
`panics` constructor of the result type models Go runtime panics. -/

inductive GoErr where
  /-- `LineParseError` (its single field holds the offending line, or a
  message for the index-parse failure). -/
  | lineParse (line : String)
  /-- `DocumentLineParseError`. -/
  | docLineParse (lineNo : Nat) (inner : GoErr)
  /-- `DocumentParseError` with no underlying error. -/
  | docParse (reason : String)
  /-- `DocumentParseError` wrapping an underlying error. -/
  | docParseWrap (reason : String) (inner : GoErr)
  /-- `DocumentMissingHeaderError`. -/
  | missingHeader
  /-- `EntryLineParseError`. -/
  | entryLine (line : Line) (reason : String)
  /-- `EntryParseError`. -/
  | entryParse (reason : String)
  /-- `DocumentHeaderParseError`. -/
  | headerParse (entry : Entry) (reason : String)
deriving DecidableEq, Repr

/-- Result of a Go `(T, error)` function that may additionally panic. -/
inductive DRes (α : Type) where
  | panics (msg : String)
  | err (e : GoErr)
  | ok (a : α)
deriving DecidableEq, Repr

/-! ## Line parser (`ParseLine` in `Line.go`)

The regular expression
`(?:\s*(?<keyword>[^\s\["#]+)\s*(?:\[(?<index>\d+)\])?)?\s*(?:"(?<value>(?:[^"]|\\")*)")?\s*(?:#(?<comment>.*))?`
consists solely of optional groups, so it always matches at offset 0 (the
`matchIndices[0] == -1` branch of `getMatches` is unreachable). Go regexp
uses leftmost-first semantics; the capture of each group is computed here
directly: greedy character runs never need to backtrack because each
character class excludes the delimiter that follows it, and the `\\"`
alternative inside the value group is unreachable (any backslash is already
consumed by the preferred `[^"]` branch, and on backtracking the character
after the backslash is never a quote). -/

structure LineCaptures where
  keyword : Option (List Char)
  index : Option (List Char)
  value : Option (List Char)
  comment : Option (List Char)
deriving DecidableEq, Repr

def parseLineCaptures (s : List Char) : LineCaptures :=
  let afterWs := s.dropWhile goIsSpace
  let kwChars := afterWs.takeWhile fun c => !goIsSpace c && c ≠ '[' && c ≠ '"' && c ≠ '#'
  let (kw?, idx?, rest1) :=
    if kwChars.isEmpty then (none, none, afterWs)
    else
      let afterKw := (afterWs.drop kwChars.length).dropWhile goIsSpace
      match afterKw with
      | '[' :: r =>
        let ds := r.takeWhile isDigitChar
        if !ds.isEmpty && (r.drop ds.length).head? = some ']' then
          (some kwChars, some ds, (r.drop ds.length).drop 1)
        else (some kwChars, none, afterKw)
      | _ => (some kwChars, none, afterKw)
  let rest2 := rest1.dropWhile goIsSpace
  let (val?, rest3) :=
    match rest2 with
    | '"' :: r =>
      let inner := r.takeWhile fun c => c ≠ '"'
      if (r.drop inner.length).head? = some '"' then
        (some inner, (r.drop inner.length).drop 1)
      else (none, rest2)
    | _ => (none, rest2)
  let rest4 := rest3.dropWhile goIsSpace
  let com? :=
    match rest4 with
    | '#' :: r => some (r.takeWhile fun c => c ≠ '\n')
    | _ => none
  { keyword := kw?, index := idx?, value := val?, comment := com? }

/-- `strconv.Atoi` fails beyond the 64-bit signed range. -/
def maxGoInt : Nat := 9223372036854775807

/-- `ParseLine`. The only reachable `LineParseError` is the index-overflow
one; `panics` covers the `populateExtraBools` index panic and any escape-dec
panic from `LineValueFromRaw`. -/
def ParseLine (line : String) : DRes Line :=
  let caps := parseLineCaptures line.data
  let kwRes : DRes Keyword :=
    match caps.keyword with
    | none => .ok emptyKeyword
    | some k =>
      match caps.index with
      | none => .ok (SimpleKeyword (String.mk k))
      | some ds =>
        if natOfDigits ds ≤ maxGoInt then
          .ok (IndexedKeyword (String.mk k) (natOfDigits ds))
        else
          .err (.lineParse ("Unable to parse index \x27" ++ String.mk ds ++ "\x27."))
  match kwRes with
  | .err e => .err e
  | .panics m => .panics m
  | .ok keyword =>
    let lvRes : DRes LineValue :=
      match caps.value with
      | none => .ok emptyLineValue
      | some raw =>
        match LineValueFromRaw (String.mk raw) with
        | none => .panics ("invalid escape sequence")
        | some lv => .ok lv
    match lvRes with
    | .err e => .err e
    | .panics m => .panics m
    | .ok lineValue =>
      let comment : Comment :=
        match caps.comment with
        | none => emptyComment
        | some c => { IsEmpty := false, Comment := String.mk c }
      match populateExtraBools keyword lineValue comment line with
      | none => .panics ("runtime error: index out of range")
      | some l => .ok l

/-! ## Entry assembler (`ParseEntry`) -/

/-- Identifies the accumulator `currentValue` points at (`*strings.Builder`
identity in Go). -/
inductive Target where
  | context
  | id
  | pluralId
  | value
  | plural (idx : Nat)
deriving DecidableEq, Repr

/-- The mutable state of the `ParseEntry` loop. -/
structure PEState where
  context : String := ""
  id : String := ""
  value : String := ""
  pluralId : String := ""
  /-- The `pluralValues` map, in insertion order. -/
  pluralValues : List (Nat × String) := []
  /-- Go `var maxPluralIndex int` starts at its zero value 0. -/
  maxPluralIndex : Nat := 0
  currentValue : Option Target := none
  nonObsoleteLinesFound : Bool := false
  isObsolete : Bool := false
  shouldBePlural : Bool := false
  /-- Modelled from the spec: records that a `msgctxt` keyword was seen. -/
  isContextual : Bool := false
  unsupportedKeywords : List String := []
deriving DecidableEq, Repr

def readAcc (s : PEState) : Target → String
  | .context => s.context
  | .id => s.id
  | .pluralId => s.pluralId
  | .value => s.value
  | .plural idx => ((s.pluralValues.lookup idx).getD "")

def writeAcc (s : PEState) (t : Target) (str : String) : PEState :=
  match t with
  | .context => { s with context := s.context ++ str }
  | .id => { s with id := s.id ++ str }
  | .pluralId => { s with pluralId := s.pluralId ++ str }
  | .value => { s with value := s.value ++ str }
  | .plural idx =>
    { s with pluralValues :=
        s.pluralValues.map fun kv => if kv.1 = idx then (kv.1, kv.2 ++ str) else kv }

/-- One iteration of the `ParseEntry` loop. In the Go source the obsolete
branch re-parses `line.Comment.Comment[2:]` into a *newly declared* variable
(`line, error := ParseLine(...)`) that shadows the loop variable only inside
the `if` block, so the re-parsed line is dropped and the keyword/value steps
below still see the original comment-only line. -/
def peStep (s : PEState) (l : Line) : DRes PEState :=
  let obsRes : DRes PEState :=
    if l.IsMarkedObsolete then
      if l.Comment.Comment.length < 2 then
        .panics ("runtime error: slice bounds out of range")
      else
        match ParseLine (l.Comment.Comment.drop 2) with
        | .panics m => .panics m
        | .err _ => .err (.entryLine zeroLine ("Failed to parse obsolete line."))
        | .ok _ => .ok { s with isObsolete := true }
    else .ok { s with nonObsoleteLinesFound := true }
  match obsRes with
  | .panics m => .panics m
  | .err e => .err e
  | .ok s1 =>
    let kwRes : DRes PEState :=
      if !l.Keyword.IsEmpty then
        if l.Keyword.IsIndexed then
          let idx := l.Keyword.Index
          let s2 := { s1 with maxPluralIndex := max s1.maxPluralIndex idx }
          if (s2.pluralValues.lookup idx).isSome then
            .err (.entryLine l ("Duplicate plural index found: " ++ toString idx ++ "."))
          else
            .ok { s2 with pluralValues := s2.pluralValues ++ [(idx, "")]
                          currentValue := some (.plural idx) }
        else
          let s2 :=
            match l.Keyword.Keyword with
            | "msgctxt" => { s1 with currentValue := some .context, isContextual := true }
            | "msgid" => { s1 with currentValue := some .id }
            | "msgid_plural" => { s1 with currentValue := some .pluralId, shouldBePlural := true }
            | "msgstr" => { s1 with currentValue := some .value }
            | kw => { s1 with unsupportedKeywords := s1.unsupportedKeywords ++ [kw] }
          match s2.currentValue with
          | none => .panics ("runtime error: invalid memory address or nil pointer dereference")
          | some t =>
            if readAcc s2 t ≠ "" then
              .err (.entryLine l ("Keyword has already appeared in a prior line."))
            else .ok s2
      else .ok s1
    match kwRes with
    | .panics m => .panics m
    | .err e => .err e
    | .ok s2 =>
      if !l.Value.IsEmpty then
        match s2.currentValue with
        | none => .err (.entryLine l ("Found a string-only line without a prior keyworded line."))
        | some t => .ok (writeAcc s2 t l.Value.Value)
      else .ok s2

def peLoop (s : PEState) : List Line → DRes PEState
  | [] => .ok s
  | l :: rest =>
    match peStep s l with
    | .panics m => .panics m
    | .err e => .err e
    | .ok s' => peLoop s' rest

/-- `entry.PluralValues[i] = pluralValues[i].String()` for `i` in
`0 ..= len-1`; a missing key would dereference a nil builder (panic). -/
def extractPlurals (pv : List (Nat × String)) : Nat → Option (List String)
  | 0 => some []
  | n + 1 => do
    let init ← extractPlurals pv n
    let v ← pv.lookup n
    pure (init ++ [v])

/-- `ParseEntry`. -/
def ParseEntry (lines : List Line) : DRes Entry :=
  match peLoop {} lines with
  | .panics m => .panics m
  | .err e => .err e
  | .ok s =>
    if s.isObsolete && s.nonObsoleteLinesFound then
      .err (.entryParse ("Entry has lines marked obsolete but has non-obsolete lines as well."))
    else if s.pluralValues.length ≠ s.maxPluralIndex + 1 then
      .err (.entryParse
        ("Expected a plural count of \x27" ++ toString (s.maxPluralIndex + 1)
          ++ "\x27 based on the highest found index, but only found \x27"
          ++ toString s.pluralValues.length ++ "\x27 plural entries."))
    else if s.shouldBePlural && s.pluralValues.length == 0 then
      .err (.entryParse ("Plural id provided, but no plurals found."))
    else if s.pluralValues.length > 0 && !s.shouldBePlural then
      .err (.entryParse ("Plurals provided, but no plural id found."))
    else if s.unsupportedKeywords.length > 0 then
      .err (.entryParse
        ("Found unsupported keywords in entry: "
          ++ String.intercalate (", ") s.unsupportedKeywords))
    else
      match extractPlurals s.pluralValues s.pluralValues.length with
      | none => .panics ("runtime error: invalid memory address or nil pointer dereference")
      | some pvs =>
        .ok { Header := ExtractEntryHeader lines
              IsObsolete := s.isObsolete
              Context := s.context
              Id := s.id
              Value := s.value
              PluralId := s.pluralId
              PluralValues := pvs
              Lines := lines
              EntryKey := { Context := s.context, Id := s.id }
              IsContextual := s.isContextual }

/-! ## Decimal model (`shopspring/decimal`)

A decimal is a mantissa/exponent pair denoting `man * 10 ^ exp`, exactly as
in the library. Comparisons compare values; `Add` rescales to the smaller
exponent; `Mod` is truncated remainder (sign of the dividend). -/

structure Dec where
  man : Int
  exp : Int
deriving DecidableEq, Repr

def pow10 (n : Nat) : Int := Int.ofNat (Nat.pow 10 n)

def imin (a b : Int) : Int := if a ≤ b then a else b

/-- Rescale both operands to the smaller exponent, exactly as the library's
`rescalePair` does before comparing, adding or taking remainders. -/
def decAlign (a b : Dec) : Int × Int :=
  let e := imin a.exp b.exp
  (a.man * pow10 (a.exp - e).toNat, b.man * pow10 (b.exp - e).toNat)

/-- The value denoted by a decimal, `man * 10 ^ exp`, as a rational; used
only in specifications. -/
def Dec.toRat (d : Dec) : ℚ := (d.man : ℚ) * (10 : ℚ) ^ d.exp

def decZero : Dec := { man := 0, exp := 0 }

def decEqual (a b : Dec) : Bool := (decAlign a b).1 = (decAlign a b).2

def decLE (a b : Dec) : Bool := (decAlign a b).1 ≤ (decAlign a b).2

def decGE (a b : Dec) : Bool := (decAlign a b).2 ≤ (decAlign a b).1

def decAdd (a b : Dec) : Dec :=
  { man := (decAlign a b).1 + (decAlign a b).2, exp := imin a.exp b.exp }

def decNeg (d : Dec) : Dec := { man := -d.man, exp := d.exp }

def decAbs (d : Dec) : Dec := { man := |d.man|, exp := d.exp }

/-- `d.Mod(d2)`: rescale to the common exponent and take the truncated
remainder (the library panics on a zero divisor; that case is unreachable
here and `Int.tmod _ 0` is taken as-is). -/
def decMod (a b : Dec) : Dec :=
  { man := Int.tmod (decAlign a b).1 (decAlign a b).2, exp := imin a.exp b.exp }

/-- Embeds `one.Pow(e)` where `one = decimal.New(1, 0)` (the only use of
`Pow` in the source, in `parsePluralRuleSample`): the library computes the
power by repeatedly multiplying/dividing copies of the base, so raising 1 to
any exponent yields exactly 1. -/
def decOnePow (_e : Dec) : Dec := { man := 1, exp := 0 }

/-- `decimal.NewFromString` / `RequireFromString`, restricted to the unsigned
forms `digits` and `digits.digits` that the tokenizers produce. -/
def decFromString (s : String) : Option Dec :=
  let cs := s.data
  let intPart := cs.takeWhile isDigitChar
  if intPart.isEmpty then none
  else
    match cs.drop intPart.length with
    | [] => some { man := (natOfDigits intPart : Int), exp := 0 }
    | '.' :: fracPart =>
      if !fracPart.isEmpty && fracPart.all isDigitChar then
        some { man := (natOfDigits (intPart ++ fracPart) : Int)
               exp := -(fracPart.length : Int) }
      else none
    | _ => none

/-! ## Plural operand model

`createOperands` belongs to this repository but its source file is not under
`src/`; it is modelled from the spec (§3, §4.4): operands are derived from
the decimal value and its visible fraction digits (the decimal's exponent),
trailing zeros included for `v`/`f` and stripped for `w`/`t`; `c`/`e` are
always zero (handled directly by their accessors). Field names follow the Go
`operands` struct used by the accessors. -/

structure operands where
  N : Dec
  I : Dec
  V : Dec
  W : Dec
  F : Dec
  T : Dec
deriving DecidableEq, Repr

/-- Strip trailing zeros from the fraction digits: given the visible count
`v` and the fraction value `f`, returns `(w, t)`. -/
def stripFracZeros : Nat → Nat → Nat × Nat
  | 0, f => (0, f)
  | v + 1, f => if f % 10 = 0 then stripFracZeros v (f / 10) else (v + 1, f)

/-- Modelled from the spec: `createOperands` (not among the provided source
files). -/
def createOperands (d : Dec) : operands :=
  let v : Nat := if d.exp < 0 then (-d.exp).toNat else 0
  let m : Nat := d.man.natAbs
  let scale : Nat := 10 ^ v
  let i : Nat := m / scale
  let f : Nat := m % scale
  let wt := stripFracZeros v f
  { N := decAbs d
    I := { man := (i : Int), exp := 0 }
    V := { man := (v : Int), exp := 0 }
    W := { man := (wt.1 : Int), exp := 0 }
    F := { man := (f : Int), exp := 0 }
    T := { man := (wt.2 : Int), exp := 0 } }

/-! ## Plural-rule tokenizer and compiler (`PluralRuleParser.go`) -/

inductive TokenKind where
  | operandName
  | and
  | or
  | equals
  | notEquals
  | modulus
  | comma
  | range
  | number
  | integerSample
  | decimalSample
  | tripleDot
deriving DecidableEq, Repr

structure Token where
  Kind : TokenKind
  Value : String
deriving DecidableEq, Repr

structure PluralRuleValidationError where
  RuleString : String
  InvalidSamples : List Dec
deriving DecidableEq, Repr

/-- Result of a plural-rule function; these functions report problems only by
panicking, either with a message or with a `PluralRuleValidationError`
value. -/
inductive PRes (α : Type) where
  | panicsMsg (msg : String)
  | panicsValidation (e : PluralRuleValidationError)
  | ok (a : α)
deriving DecidableEq, Repr

abbrev PluralRuleOperation := Dec → Bool

abbrev relation := operands → Bool

abbrev accessor := operands → Dec

/-- `text/scanner` whitespace (`GoWhitespace`). -/
def scannerWhitespace (c : Char) : Bool :=
  c = ' ' || c = '\t' || c = '\n' || c = '\r'

/-- The custom `IsIdentRune` of `tokenizePluralRule`: `!`, `=`, `.` and
letters, at any position. -/
def ruleIdentRune (c : Char) : Bool :=
  c = '!' || c = '=' || c = '.' || isAsciiLetter c

def ruleIdentToken (iden : String) : Option Token :=
  if iden = ".." then some { Kind := .range, Value := "" }
  else if iden = "or" then some { Kind := .or, Value := "" }
  else if iden = "and" then some { Kind := .and, Value := "" }
  else if iden = "=" then some { Kind := .equals, Value := "" }
  else if iden = "!=" then some { Kind := .notEquals, Value := "" }
  else if iden = "n" || iden = "i" || iden = "v" || iden = "w" || iden = "f"
      || iden = "t" || iden = "c" || iden = "e" then
    some { Kind := .operandName, Value := iden }
  else none

/-- The scan loop of `tokenizePluralRule`: identifiers (per `ruleIdentRune`),
integers, `%`, `,`; scanning stops at `@` and the sample string is the
remainder of the source from the `@` on; any other character or identifier
panics. Digit runs model `scanner.ScanInts` (the Go-syntax prefixes it would
additionally accept never occur in rule text). -/
def ruleScan : Nat → List Char → List Token → PRes (List Token × String)
  | _, [], acc => .ok (acc, "")
  | 0, _ :: _, _ => .panicsMsg ("fuel exhausted")
  | fuel + 1, cs, acc =>
    match cs.dropWhile scannerWhitespace with
    | [] => .ok (acc, "")
    | c :: rest =>
      if ruleIdentRune c then
        let iden := c :: rest.takeWhile ruleIdentRune
        match ruleIdentToken (String.mk iden) with
        | some tok => ruleScan fuel (rest.drop (iden.length - 1)) (acc ++ [tok])
        | none => .panicsMsg ("Unknown ident \x27" ++ String.mk iden ++ "\x27")
      else if isDigitChar c then
        let ds := c :: rest.takeWhile isDigitChar
        ruleScan fuel (rest.drop (ds.length - 1))
          (acc ++ [{ Kind := .number, Value := String.mk ds }])
      else if c = '@' then .ok (acc, String.mk (c :: rest))
      else if c = '%' then ruleScan fuel rest (acc ++ [{ Kind := .modulus, Value := "" }])
      else if c = ',' then ruleScan fuel rest (acc ++ [{ Kind := .comma, Value := "" }])
      else .panicsMsg ("Unknown token \x27" ++ toString c.toNat ++ "\x27")

def tokenizePluralRule (pluralRule : String) : PRes (List Token × String) :=
  ruleScan (pluralRule.length + 1) pluralRule.data []

/-- `readNextToken`: pops the next token when its kind is among the expected
ones, otherwise leaves the list untouched. -/
def readNextToken (tokens : List Token) (expected : List TokenKind) :
    Option (TokenKind × String) × List Token :=
  match tokens with
  | [] => (none, [])
  | t :: rest => if expected.contains t.Kind then (some (t.Kind, t.Value), rest) else (none, tokens)

/-- `mustReadNextToken`: panics when the expected kind is not next (reading
`(*tokens)[0]` for the message, which itself panics on an empty list). -/
def mustReadNextToken (tokens : List Token) (expected : List TokenKind) :
    PRes ((TokenKind × String) × List Token) :=
  match readNextToken tokens expected with
  | (some kv, rest) => .ok (kv, rest)
  | (none, _) =>
    match tokens with
    | [] => .panicsMsg ("runtime error: index out of range")
    | _ => .panicsMsg ("unexpected token")

def readNumber (tokens : List Token) : PRes (Dec × List Token) :=
  match mustReadNextToken tokens [.number] with
  | .panicsMsg m => .panicsMsg m
  | .panicsValidation e => .panicsValidation e
  | .ok ((_, raw), rest) =>
    match decFromString raw with
    | none => .panicsMsg ("invalid decimal")
    | some d => .ok (d, rest)

def readModulus (tokens : List Token) : PRes ((Dec × Bool) × List Token) :=
  match readNextToken tokens [.modulus] with
  | (none, rest) => .ok ((decZero, false), rest)
  | (some _, rest) =>
    match readNumber rest with
    | .panicsMsg m => .panicsMsg m
    | .panicsValidation e => .panicsValidation e
    | .ok (d, rest') => .ok ((d, true), rest')

def readRange (tokens : List Token) : PRes ((Dec × Bool) × List Token) :=
  match readNextToken tokens [.range] with
  | (none, rest) => .ok ((decZero, false), rest)
  | (some _, rest) =>
    match readNumber rest with
    | .panicsMsg m => .panicsMsg m
    | .panicsValidation e => .panicsValidation e
    | .ok (d, rest') => .ok ((d, true), rest')

def baseAccessor (name : String) : PRes accessor :=
  if name = "n" then .ok fun o => o.N
  else if name = "i" then .ok fun o => o.I
  else if name = "v" then .ok fun o => o.V
  else if name = "w" then .ok fun o => o.W
  else if name = "f" then .ok fun o => o.F
  else if name = "t" then .ok fun o => o.T
  else if name = "c" then .ok fun _ => decZero
  else if name = "e" then .ok fun _ => decZero
  else .panicsMsg ("Unknown operand name: " ++ name)

def constructAccessor (tokens : List Token) : PRes (accessor × List Token) :=
  match mustReadNextToken tokens [.operandName] with
  | .panicsMsg m => .panicsMsg m
  | .panicsValidation e => .panicsValidation e
  | .ok ((_, operandName), rest) =>
    match readModulus rest with
    | .panicsMsg m => .panicsMsg m
    | .panicsValidation e => .panicsValidation e
    | .ok ((modValue, hasModValue), rest') =>
      match baseAccessor operandName with
      | .panicsMsg m => .panicsMsg m
      | .panicsValidation e => .panicsValidation e
      | .ok acc =>
        if hasModValue then .ok ((fun o => decMod (acc o) modValue), rest')
        else .ok (acc, rest')

def constructSingleRelation (tokens : List Token) (acc : accessor)
    (isEqualityOperation : Bool) : PRes (relation × List Token) :=
  match readNumber tokens with
  | .panicsMsg m => .panicsMsg m
  | .panicsValidation e => .panicsValidation e
  | .ok (number, r1) =>
    match readRange r1 with
    | .panicsMsg m => .panicsMsg m
    | .panicsValidation e => .panicsValidation e
    | .ok ((highNumber, isRange), r2) =>
      if isRange then
        .ok ((fun o =>
          let n := acc o
          let result := decGE n number && decLE n highNumber
          if isEqualityOperation then result else !result), r2)
      else
        .ok ((fun o =>
          let result := decEqual (acc o) number
          if isEqualityOperation then result else !result), r2)

/-- The comma loop of `constructListRelation`: each comma-separated `single`
is built with the shared accessor and operator sense and OR-ed onto the
accumulated relation. -/
def listRelLoop : Nat → relation → accessor → Bool → List Token →
    PRes (relation × List Token)
  | 0, _, _, _, _ => .panicsMsg ("fuel exhausted")
  | fuel + 1, rel, acc, isEq, tokens =>
    match readNextToken tokens [.comma] with
    | (none, rest) => .ok (rel, rest)
    | (some _, rest) =>
      match constructSingleRelation rest acc isEq with
      | .panicsMsg m => .panicsMsg m
      | .panicsValidation e => .panicsValidation e
      | .ok (newRel, rest') =>
        listRelLoop fuel (fun o => rel o || newRel o) acc isEq rest'

def constructListRelation (tokens : List Token) : PRes (relation × List Token) :=
  match constructAccessor tokens with
  | .panicsMsg m => .panicsMsg m
  | .panicsValidation e => .panicsValidation e
  | .ok (acc, r1) =>
    match mustReadNextToken r1 [.equals, .notEquals] with
    | .panicsMsg m => .panicsMsg m
    | .panicsValidation e => .panicsValidation e
    | .ok ((kind, _), r2) =>
      let isEqualityOperation := kind = .equals
      match constructSingleRelation r2 acc isEqualityOperation with
      | .panicsMsg m => .panicsMsg m
      | .panicsValidation e => .panicsValidation e
      | .ok (rel, r3) => listRelLoop (r3.length + 1) rel acc isEqualityOperation r3

def andChainLoop : Nat → relation → List Token → PRes (relation × List Token)
  | 0, _, _ => .panicsMsg ("fuel exhausted")
  | fuel + 1, rel, tokens =>
    match readNextToken tokens [.and] with
    | (none, rest) => .ok (rel, rest)
    | (some _, rest) =>
      match constructListRelation rest with
      | .panicsMsg m => .panicsMsg m
      | .panicsValidation e => .panicsValidation e
      | .ok (newRel, rest') => andChainLoop fuel (fun o => rel o && newRel o) rest'

def constructAndConditionChain (tokens : List Token) : PRes (relation × List Token) :=
  match constructListRelation tokens with
  | .panicsMsg m => .panicsMsg m
  | .panicsValidation e => .panicsValidation e
  | .ok (rel, rest) => andChainLoop (rest.length + 1) rel rest

def orChainLoop : Nat → relation → List Token → PRes (relation × List Token)
  | 0, _, _ => .panicsMsg ("fuel exhausted")
  | fuel + 1, rel, tokens =>
    match readNextToken tokens [.or] with
    | (none, rest) => .ok (rel, rest)
    | (some _, rest) =>
      match constructAndConditionChain rest with
      | .panicsMsg m => .panicsMsg m
      | .panicsValidation e => .panicsValidation e
      | .ok (newRel, rest') => orChainLoop fuel (fun o => rel o || newRel o) rest'

/-! ## Sample tokenizer and validator (`PluralRuleSampleValidation.go`) -/

/-- The custom `IsIdentRune` of `tokenizePluralRuleSample`: `@` anywhere,
letters except at position 0, `…` anywhere, `.` at positions 0, 1, 2. -/
def sampleIdentRune (c : Char) (i : Nat) : Bool :=
  c = '@' || (isAsciiLetter c && i > 0) || c = '…' || (c = '.' && i ≤ 2)

def takeSampleIdent : List Char → Nat → List Char
  | [], _ => []
  | c :: rest, i => if sampleIdentRune c i then c :: takeSampleIdent rest (i + 1) else []

def sampleIdentToken (iden : String) : Option Token :=
  if iden = "..." then some { Kind := .tripleDot, Value := "" }
  else if iden = "…" then some { Kind := .tripleDot, Value := "" }
  else if iden = "@integer" then some { Kind := .integerSample, Value := "" }
  else if iden = "@decimal" then some { Kind := .decimalSample, Value := "" }
  else none

/-- A number per `scanner.ScanInts | scanner.ScanFloats`: a digit run with an
optional fraction (`.` followed by at least one digit); exponent forms never
occur since a bare `e`/`c` is not an identifier rune at position 0 and is
handled as a separate character token by the caller. -/
def takeSampleNumber (cs : List Char) : List Char :=
  let intPart := cs.takeWhile isDigitChar
  match cs.drop intPart.length with
  | '.' :: rest =>
    let fracPart := rest.takeWhile isDigitChar
    if fracPart.isEmpty then intPart else intPart ++ '.' :: fracPart
  | _ => intPart

/-- The scan loop of `tokenizePluralRuleSample`. A bare `c`/`e` marks
exponential notation: the preceding number token is removed (panicking via
slice underflow if there is none) and the following number is discarded. -/
def sampleScan : Nat → List Char → List Token → Bool → PRes (List Token)
  | _, [], acc, _ => .ok acc
  | 0, _ :: _, _, _ => .panicsMsg ("fuel exhausted")
  | fuel + 1, cs, acc, foundExp =>
    match cs.dropWhile scannerWhitespace with
    | [] => .ok acc
    | c :: rest =>
      if sampleIdentRune c 0 then
        let iden := c :: takeSampleIdent rest 1
        match sampleIdentToken (String.mk iden) with
        | some tok => sampleScan fuel (rest.drop (iden.length - 1)) (acc ++ [tok]) foundExp
        | none => .panicsMsg ("Unknown ident \x27" ++ String.mk iden ++ "\x27")
      else if isDigitChar c then
        let num := takeSampleNumber (c :: rest)
        if foundExp then sampleScan fuel (rest.drop (num.length - 1)) acc false
        else
          sampleScan fuel (rest.drop (num.length - 1))
            (acc ++ [{ Kind := .number, Value := String.mk num }]) foundExp
      else if c = '~' then
        sampleScan fuel rest (acc ++ [{ Kind := .range, Value := "" }]) foundExp
      else if c = ',' then
        sampleScan fuel rest (acc ++ [{ Kind := .comma, Value := "" }]) foundExp
      else if c = 'c' || c = 'e' then
        match acc with
        | [] => .panicsMsg ("runtime error: slice bounds out of range")
        | _ => sampleScan fuel rest acc.dropLast true
      else .panicsMsg ("Unknown token \x27" ++ toString c.toNat ++ "\x27")

def tokenizePluralRuleSample (sample : String) : PRes (List Token) :=
  sampleScan (sample.length + 1) sample.data [] false

/-- The range-expansion loop of `parsePluralRuleSample`:
`for d := lowValue.Add(increment); d.LessThanOrEqual(n); d = d.Add(increment)`.
The Go loop terminates because the increment is the constant 1; the fuel is
an upper bound on the iterations of every range in CLDR data. -/
def rangeLoop : Nat → Dec → Dec → Dec → List Dec
  | 0, _, _, _ => []
  | fuel + 1, d, increment, hi =>
    if decLE d hi then d :: rangeLoop fuel (decAdd d increment) increment hi else []

def sampleRangeFuel : Nat := 1000000

/-- The interpretation loop of `parsePluralRuleSample`. -/
def sampleLoop : List Token → List Dec → Dec → Bool → PRes (List Dec)
  | [], results, _, _ => .ok results
  | t :: rest, results, lowValue, isRange =>
    match t.Kind with
    | .number =>
      match decFromString t.Value with
      | none => .panicsMsg ("invalid decimal")
      | some n =>
        if isRange then
          let o := createOperands n
          let increment := decOnePow (decNeg o.V)
          sampleLoop rest (results ++ rangeLoop sampleRangeFuel (decAdd lowValue increment) increment n)
            lowValue false
        else sampleLoop rest (results ++ [n]) n isRange
    | .range => sampleLoop rest results lowValue true
    | .integerSample => sampleLoop rest results lowValue isRange
    | .decimalSample => sampleLoop rest results lowValue isRange
    | .comma => sampleLoop rest results lowValue isRange
    | .tripleDot => sampleLoop rest results lowValue isRange
    | _ => .panicsMsg ("Unknown token found")

def parsePluralRuleSample (sample : String) : PRes (List Dec) :=
  match tokenizePluralRuleSample sample with
  | .panicsMsg m => .panicsMsg m
  | .panicsValidation e => .panicsValidation e
  | .ok tokens => sampleLoop tokens [] decZero false

/-- `validatePluralRule`: evaluates the compiled predicate on every expanded
sample and reports the failing ones (in sample order) as a
`PluralRuleValidationError` carrying the rule text. -/
def validatePluralRule (pluralRule : PluralRuleOperation) (sampleString ruleString : String) :
    PRes (Option PluralRuleValidationError) :=
  match parsePluralRuleSample sampleString with
  | .panicsMsg m => .panicsMsg m
  | .panicsValidation e => .panicsValidation e
  | .ok samples =>
    if (samples.filter fun s => !(pluralRule s)).length > 0 then
      .ok (some { RuleString := ruleString
                  InvalidSamples := samples.filter fun s => !(pluralRule s) })
    else .ok none

/-- `parsePluralRule`: `none` for the empty rule string, an always-true
predicate for a rule that tokenizes to zero tokens (blank rule before the
sample clause), otherwise the compiled predicate, which must additionally
pass validation against its own samples (a validation failure panics with the
`PluralRuleValidationError`). -/
def parsePluralRule (pluralRule : String) : PRes (Option PluralRuleOperation) :=
  if pluralRule.length = 0 then .ok none
  else
    match tokenizePluralRule pluralRule with
    | .panicsMsg m => .panicsMsg m
    | .panicsValidation e => .panicsValidation e
    | .ok (tokens, sample) =>
      if tokens.length = 0 then .ok (some fun _ => true)
      else
        match constructAndConditionChain tokens with
        | .panicsMsg m => .panicsMsg m
        | .panicsValidation e => .panicsValidation e
        | .ok (rel0, rest0) =>
          match orChainLoop (rest0.length + 1) rel0 rest0 with
          | .panicsMsg m => .panicsMsg m
          | .panicsValidation e => .panicsValidation e
          | .ok (rel, restF) =>
            if restF.length > 0 then .panicsMsg ("Unexpectedly have additional tokens")
            else
              match validatePluralRule (fun d => rel (createOperands d)) sample pluralRule with
              | .panicsMsg m => .panicsMsg m
              | .panicsValidation e => .panicsValidation e
              | .ok (some e) => .panicsValidation e
              | .ok none => .ok (some fun d => rel (createOperands d))

/-! ## Plural rule set and document header (`CreateHeaderFromEntry` file)

`PluralRulesDefinition.Parse` and the `PluralRules` container are referenced
by `CreateHeaderFromEntry` but their source is not among the provided files;
they are modelled from the spec (§3, §4.7): up to five compiled predicates
keyed by category, built once at header-parse time by compiling each
definition string. -/

structure PluralRulesDefinition where
  Zero : String := ""
  One : String := ""
  Two : String := ""
  Few : String := ""
  Many : String := ""
  Other : String := ""

structure PluralRules where
  Zero : Option PluralRuleOperation
  One : Option PluralRuleOperation
  Two : Option PluralRuleOperation
  Few : Option PluralRuleOperation
  Many : Option PluralRuleOperation

/-- Modelled from the spec: `d.Parse()` compiles every category's rule string
(`other` is the default category and stores no rule). -/
def PluralRulesDefinition.Parse (d : PluralRulesDefinition) : PRes PluralRules :=
  match parsePluralRule d.Zero with
  | .panicsMsg m => .panicsMsg m
  | .panicsValidation e => .panicsValidation e
  | .ok z =>
  match parsePluralRule d.One with
  | .panicsMsg m => .panicsMsg m
  | .panicsValidation e => .panicsValidation e
  | .ok o =>
  match parsePluralRule d.Two with
  | .panicsMsg m => .panicsMsg m
  | .panicsValidation e => .panicsValidation e
  | .ok t =>
  match parsePluralRule d.Few with
  | .panicsMsg m => .panicsMsg m
  | .panicsValidation e => .panicsValidation e
  | .ok f =>
  match parsePluralRule d.Many with
  | .panicsMsg m => .panicsMsg m
  | .panicsValidation e => .panicsValidation e
  | .ok m =>
  match parsePluralRule d.Other with
  | .panicsMsg msg => .panicsMsg msg
  | .panicsValidation e => .panicsValidation e
  | .ok _ => .ok { Zero := z, One := o, Two := t, Few := f, Many := m }

/-- Modelled from the spec: the external locale-tag normalizer
(`language.Make` of `golang.org/x/text`), an out-of-scope collaborator
(§6); a tag is represented by its canonical string, and for the plain
lower-case language codes exercised here `Make` is the identity. -/
def makeTag (s : String) : String := s

structure DocumentHeader where
  Tag : String
  PluralRules : PluralRules

/-- `languageExtractor = (?im)^Language: (.+)$` — first line (multiline
mode) whose case-insensitive prefix is `Language: ` followed by at least one
character; captures the rest of the line. -/
def languageExtract (value : String) : Option String :=
  ((splitOnChar '\n' value.data).find? fun l =>
      asciiLower (l.take 10) = "language: ".data && l.length > 10).map
    fun l => String.mk (l.drop 10)

/-- `languageParser = (?i)([a-z]+)(?:_([a-z]+))?(?:@([a-z]+))?` — first
match: the first letter run, optionally followed by `_letters` and
`@letters`. Returns `(language, country?, variant?)`. -/
def languageParse (s : String) : Option (String × Option String × Option String) :=
  let cs := s.data.dropWhile fun c => !isAsciiLetter c
  match cs with
  | [] => none
  | _ =>
    let g1 := cs.takeWhile isAsciiLetter
    let rest1 := cs.drop g1.length
    let (g2, rest2) :=
      match rest1 with
      | '_' :: r =>
        let w := r.takeWhile isAsciiLetter
        if w.isEmpty then (none, rest1) else (some (String.mk w), r.drop w.length)
      | _ => (none, rest1)
    let g3 :=
      match rest2 with
      | '@' :: r =>
        let w := r.takeWhile isAsciiLetter
        if w.isEmpty then none else some (String.mk w)
      | _ => none
    some (String.mk g1, g2, g3)

def getTextVariantMap (v : String) : Option String :=
  if v = "latin" then some ("Latn")
  else if v = "cyrillic" then some ("Cyrl")
  else if v = "adlam" then some ("Adlm")
  else if v = "javanese" then some ("Java")
  else if v = "arabic" then some ("Arab")
  else if v = "devanagari" then some ("Deva")
  else if v = "mongolian" then some ("Mong")
  else if v = "bangla" then some ("Beng")
  else if v = "gurmukhi" then some ("Guru")
  else if v = "olchiki" then some ("Olck")
  else if v = "tifinagh" then some ("Tfng")
  else if v = "vai" then some ("Vaii")
  else if v = "simplified" then some ("Hans")
  else if v = "traditional" then some ("Hant")
  else none

/-- One line of `pluralRuleExtractor = (?im)^X-PluralRules-([a-z]+): *(.*)$`:
case-insensitive prefix `X-PluralRules-`, a letter run, `:`, any spaces, and
the captured rest of the line. -/
def pluralRuleLine (l : List Char) : Option (String × String) :=
  if asciiLower (l.take 14) = "x-pluralrules-".data then
    let cs := l.drop 14
    let g1 := cs.takeWhile isAsciiLetter
    if g1.isEmpty then none
    else
      match cs.drop g1.length with
      | ':' :: r => some (String.mk g1, String.mk (r.dropWhile fun c => c = ' '))
      | _ => none
  else none

def applyPluralRuleLine (d : PluralRulesDefinition) (l : List Char) : PluralRulesDefinition :=
  match pluralRuleLine l with
  | none => d
  | some (cat, rule) =>
    let lc := String.mk (asciiLower cat.data)
    if lc = "zero" then { d with Zero := rule }
    else if lc = "one" then { d with One := rule }
    else if lc = "two" then { d with Two := rule }
    else if lc = "few" then { d with Few := rule }
    else if lc = "many" then { d with Many := rule }
    else if lc = "other" then { d with Other := rule }
    else d

/-- `CreateHeaderFromEntry`. -/
def CreateHeaderFromEntry (entry : Entry) : DRes DocumentHeader :=
  if entry.IsContextual then
    .err (.headerParse entry ("Header must not be contextual."))
  else
    match languageExtract entry.Value with
    | none => .err (.headerParse entry ("Language not found."))
    | some rawLanguageValue =>
      let langRes : DRes String :=
        match languageParse rawLanguageValue with
        | none => .ok rawLanguageValue
        | some (base, country?, variant?) =>
          let withVariant : DRes String :=
            match variant? with
            | none => .ok base
            | some v =>
              match getTextVariantMap v with
              | some code => .ok (base ++ "-" ++ code)
              | none =>
                .err (.headerParse entry
                  ("Unable to parse variant of language: " ++ rawLanguageValue))
          match withVariant with
          | .panics m => .panics m
          | .err e => .err e
          | .ok lv =>
            match country? with
            | none => .ok lv
            | some c => .ok (lv ++ "-" ++ c)
      match langRes with
      | .panics m => .panics m
      | .err e => .err e
      | .ok languageValue =>
        let d := (splitOnChar '\n' entry.Value.data).foldl applyPluralRuleLine {}
        match d.Parse with
        | .panicsMsg m => .panics m
        | .panicsValidation e =>
          .panics ("Plural rule \x27" ++ e.RuleString ++ "\x27 failed sample validation.")
        | .ok rules => .ok { Tag := makeTag languageValue, PluralRules := rules }

/-! ## Document assembler (`ParseDocument` file) -/

structure Document where
  Header : DocumentHeader
  Entries : List Entry

/-- `CreateDocument`. -/
def CreateDocument (entries : List Entry) : DRes Document :=
  match entries with
  | [] => .err .missingHeader
  | e0 :: _ =>
    if e0.Id.length > 0 then .err .missingHeader
    else
      match CreateHeaderFromEntry e0 with
      | .panics m => .panics m
      | .err e => .err e
      | .ok header => .ok { Header := header, Entries := entries }

/-- Go `fmt.Sprintf` with the `+v` verb on an `EntryKey` value. -/
def fmtEntryKey (k : EntryKey) : String :=
  "\x7bContext:" ++ k.Context ++ " Id:" ++ k.Id ++ "\x7d"

structure documentParsingContext where
  Entries : List Entry := []
  FoundEntries : List EntryKey := []
  HaveHeader : Bool := false
  ProcessingContextualEntry : Bool := false
  currentEntryLines : List Line := []
  currentCommentBlock : List Line := []

def documentParsingContext.AddComment (ctx : documentParsingContext) (l : Line) :
    documentParsingContext :=
  { ctx with currentCommentBlock := ctx.currentCommentBlock ++ [l] }

def documentParsingContext.PushComments (ctx : documentParsingContext) :
    documentParsingContext :=
  { ctx with currentEntryLines := ctx.currentEntryLines ++ ctx.currentCommentBlock
             currentCommentBlock := [] }

def documentParsingContext.PushLine (ctx : documentParsingContext) (l : Line) :
    documentParsingContext :=
  { ctx with currentEntryLines := ctx.currentEntryLines ++ [l] }

/-- `FinishCurrentEntry`: parse the accumulated lines, reject a duplicate
`EntryKey`, and append the finished entry. -/
def documentParsingContext.FinishCurrentEntry (ctx : documentParsingContext) :
    DRes documentParsingContext :=
  match ParseEntry ctx.currentEntryLines with
  | .panics m => .panics m
  | .err e => .err e
  | .ok entry =>
    if ctx.FoundEntries.contains entry.EntryKey then
      .err (.docParse ("Duplicate entry found: " ++ fmtEntryKey entry.EntryKey))
    else
      .ok { ctx with FoundEntries := ctx.FoundEntries ++ [entry.EntryKey]
                     currentEntryLines := []
                     Entries := ctx.Entries ++ [entry] }

/-- The loop of `StartNextEntry`: scan the pending comment/whitespace block;
on the first whitespace-only line finish the current entry, then append every
remaining pending line (including that whitespace line) to the now-current
entry. Returns the context and whether a whitespace line was found. -/
def snLoop : List Line → Bool → documentParsingContext →
    DRes (documentParsingContext × Bool)
  | [], foundWs, ctx => .ok (ctx, foundWs)
  | l :: rest, foundWs, ctx =>
    if !foundWs && l.IsWhiteSpace then
      match ctx.FinishCurrentEntry with
      | .panics m => .panics m
      | .err e => .err e
      | .ok ctx2 => snLoop rest true (ctx2.PushLine l)
    else snLoop rest foundWs (ctx.PushLine l)

/-- `StartNextEntry`. If the scan found no whitespace-only line, the whole
pending block has been appended to the ending entry, which is finished now. -/
def documentParsingContext.StartNextEntry (ctx : documentParsingContext) :
    DRes documentParsingContext :=
  match snLoop ctx.currentCommentBlock false ctx with
  | .panics m => .panics m
  | .err e => .err e
  | .ok (ctx2, foundWs) =>
    let ctx3 := { ctx2 with currentCommentBlock := [] }
    if !foundWs then ctx3.FinishCurrentEntry else .ok ctx3

/-- One line of the `ParseDocument` state-machine loop. -/
def docStep (ctx : documentParsingContext) (actualLine : Line) :
    DRes documentParsingContext :=
  let inspectRes : DRes Line :=
    if actualLine.IsMarkedObsolete then
      if actualLine.Comment.Comment.length < 2 then
        .panics ("runtime error: slice bounds out of range")
      else
        match ParseLine (actualLine.Comment.Comment.drop 2) with
        | .panics m => .panics m
        | .err e => .err (.docParseWrap ("Failed to parse obsolete line.") e)
        | .ok l => .ok l
    else .ok actualLine
  match inspectRes with
  | .panics m => .panics m
  | .err e => .err e
  | .ok lineToInspect =>
    if lineToInspect.IsCommentOrWhiteSpace then .ok (ctx.AddComment actualLine)
    else if !ctx.HaveHeader && actualLine.Keyword.Keyword = "msgctxt" then
      .err (.docParse
        ("The first entry should be the header, and the header should not have a msgctxt."))
    else if !ctx.HaveHeader && actualLine.Keyword.Keyword = "msgid" then
      if actualLine.Value.Raw.length > 0 then
        .err (.docParse
          ("First entry must be a header with a blank \x27msgid\x27. Found: "
            ++ actualLine.RawLine))
      else
        .ok ((({ ctx with HaveHeader := true }).PushComments).PushLine actualLine)
    else
      match lineToInspect.Keyword.Keyword with
      | "msgctxt" =>
        if ctx.ProcessingContextualEntry then
          .err (.docParse
            ("Found two consecutive \x27msgctxt\x27 keyworded entries in a row without a \x27msgid\x27 between them."))
        else
          match ctx.StartNextEntry with
          | .panics m => .panics m
          | .err e => .err e
          | .ok ctx2 =>
            .ok (({ ctx2 with ProcessingContextualEntry := true }).PushLine actualLine)
      | "msgid" =>
        let nextRes : DRes documentParsingContext :=
          if !ctx.ProcessingContextualEntry then ctx.StartNextEntry else .ok ctx
        match nextRes with
        | .panics m => .panics m
        | .err e => .err e
        | .ok ctx2 =>
          .ok (({ ctx2 with ProcessingContextualEntry := false }).PushLine actualLine)
      | _ => .ok ((ctx.PushComments).PushLine actualLine)

def docLoop (ctx : documentParsingContext) : List Line → DRes documentParsingContext
  | [] => .ok ctx
  | l :: rest =>
    match docStep ctx l with
    | .panics m => .panics m
    | .err e => .err e
    | .ok ctx' => docLoop ctx' rest

/-- `ParseDocument` over already-parsed lines: run the state machine, flush
the remaining pending block, finish the open entry and build the document. -/
def ParseDocument (lines : List Line) : DRes Document :=
  match docLoop {} lines with
  | .panics m => .panics m
  | .err e => .err e
  | .ok ctx =>
    match (ctx.PushComments).FinishCurrentEntry with
    | .panics m => .panics m
    | .err e => .err e
    | .ok ctx' => CreateDocument ctx'.Entries

/-- `bufio.Scanner` with `ScanLines`: split on `\n`, dropping a final empty
token after a trailing newline and stripping a trailing `\r` from each
line. -/
def splitGoLines (s : String) : List String :=
  if s.length = 0 then []
  else
    let parts := splitOnChar '\n' s.data
    let parts := if parts.getLast? = some [] then parts.dropLast else parts
    parts.map fun l =>
      String.mk (if l.getLast? = some '\r' then l.dropLast else l)

def parseAllLines : Nat → List String → List Line → DRes (List Line)
  | _, [], acc => .ok acc
  | lineCounter, l :: rest, acc =>
    match ParseLine l with
    | .panics m => .panics m
    | .err e => .err (.docLineParse lineCounter e)
    | .ok line => parseAllLines (lineCounter + 1) rest (acc ++ [line])

/-- `ParseDocumentString`. -/
def ParseDocumentString (d : String) : DRes Document :=
  match parseAllLines 1 (splitGoLines d) [] with
  | .panics m => .panics m
  | .err e => .err e
  | .ok lines => ParseDocument lines

/-! ## Concrete catalogs and observation helpers used by the theorems -/

/-- Scenario A of the spec: header entry, blank line, `foo`/`bar` entry. -/
def scenarioACatalog : String :=
  "msgid \"\"\nmsgstr \"Language: ja\\n\"\n\nmsgid \"foo\"\nmsgstr \"bar\""

/-- Scenario B of the spec: two non-header entries with id `foo`, no context. -/
def scenarioBCatalog : String :=
  "msgid \"\"\nmsgstr \"Language: ja\\n\"\n\nmsgid \"foo\"\nmsgstr \"bar\"\n\nmsgid \"foo\"\nmsgstr \"baz\""

/-- A catalog whose entries all carry plural lines (so that `ParseEntry`'s
plural-count check passes) and whose two non-header entries share the key
`("", "foo")`. -/
def dupPluralCatalog : String :=
  "msgid \"\"\nmsgstr \"Language: ja\\n\"\nmsgid_plural \"x\"\nmsgstr[0] \"v\"\n\nmsgid \"foo\"\nmsgid_plural \"foos\"\nmsgstr[0] \"bar\"\n\nmsgid \"foo\"\nmsgid_plural \"foos\"\nmsgstr[0] \"baz\""

/-- A catalog with plural-bearing entries and distinct keys; it parses
successfully. -/
def pluralDemoCatalog : String :=
  "msgid \"\"\nmsgstr \"Language: ja\\n\"\nmsgid_plural \"x\"\nmsgstr[0] \"v\"\n\nmsgid \"foo\"\nmsgid_plural \"foos\"\nmsgstr[0] \"bar\""

/-- The `EntryParseError` message produced for an entry with no `msgstr[n]`
lines (`maxPluralIndex` starts at 0, so the expected count is 1). -/
def pluralCountZeroMsg : String :=
  "Expected a plural count of \x271\x27 based on the highest found index, but only found \x270\x27 plural entries."

/-- The entry keys of a successfully parsed document. -/
def docKeys (r : DRes Document) : Option (List EntryKey) :=
  match r with
  | .ok d => some (d.Entries.map fun e => e.EntryKey)
  | _ => none

/-- The context fields of a successfully parsed document's entries. -/
def docContexts (r : DRes Document) : Option (List String) :=
  match r with
  | .ok d => some (d.Entries.map fun e => e.Context)
  | _ => none

/-- The line `#~ msgid "bar"` as produced by `ParseLine`. -/
def obsMsgidBarLine : Line :=
  { Keyword := emptyKeyword, Value := emptyLineValue
    Comment := { IsEmpty := false, Comment := "~ msgid \"bar\"" }
    RawLine := "#~ msgid \"bar\""
    IsCommentOrWhiteSpace := true, IsWhiteSpace := false
    IsComment := true, IsMarkedObsolete := true }

/-- The line `#~ msgstr "baz"` as produced by `ParseLine`. -/
def obsMsgstrBazLine : Line :=
  { Keyword := emptyKeyword, Value := emptyLineValue
    Comment := { IsEmpty := false, Comment := "~ msgstr \"baz\"" }
    RawLine := "#~ msgstr \"baz\""
    IsCommentOrWhiteSpace := true, IsWhiteSpace := false
    IsComment := true, IsMarkedObsolete := true }

/-! # Theorems for the claims -/

/-- C10: `ParseLine` on the line consisting solely of `#` (a comment marker
with empty comment text) panics with an index-out-of-range error instead of
returning a `Line` or an error: `populateExtraBools` reads
`line.Comment.Comment[0]` without checking that the comment text is
non-empty. -/
theorem parseLine_lone_hash_panics :
    ParseLine ("#") = .panics ("runtime error: index out of range") := by rfl

/-- C1 (failing-input evaluation): parsing the Scenario A catalog — header
`msgid ""` / `msgstr "Language: ja\n"`, a blank line, then `msgid "foo"` /
`msgstr "bar"` — does not succeed with two entries as the claim states: it is
rejected with the entry-structure error produced by the plural-count check,
because `ParseEntry` initializes `maxPluralIndex` to 0 and therefore demands
one `msgstr[n]` line of every entry, including the header. -/
theorem scenarioA_rejected_by_plural_count_check :
    ParseDocumentString scenarioACatalog = .err (.entryParse pluralCountZeroMsg) := by rfl

set_option maxRecDepth 100000 in
/-- C2 (failing-input evaluation plus nearby positive evidence): the
Scenario B catalog (two non-header entries with id `foo` and no context)
fails, but with the plural-count `EntryParseError` raised while finishing the
header entry — not with the duplicate-key `DocumentParseError` the claim
(and the repository's own test) expects. When every entry carries plural
lines so that `ParseEntry` succeeds, the duplicate key `("", "foo")` *is*
detected, and a successful parse does put the header entry first with an
empty id and context and pairwise-distinct entry keys. -/
theorem scenarioB_fails_with_entry_error_not_duplicate_key :
    ParseDocumentString scenarioBCatalog = .err (.entryParse pluralCountZeroMsg)
    ∧ ParseDocumentString dupPluralCatalog
        = .err (.docParse ("Duplicate entry found: \x7bContext: Id:foo\x7d"))
    ∧ docKeys (ParseDocumentString pluralDemoCatalog)
        = some [{ Context := "", Id := "" }, { Context := "", Id := "foo" }]
    ∧ docContexts (ParseDocumentString pluralDemoCatalog) = some ["", ""]
    ∧ [({ Context := "", Id := "" } : EntryKey), { Context := "", Id := "foo" }].Nodup := by
  refine ⟨by rfl, by rfl, by rfl, by rfl, by decide⟩

/-- C5 (failing-input evaluation): an entry made entirely of the
obsolete-marked lines `#~ msgid "bar"` / `#~ msgstr "baz"` does not yield an
entry whose id/value come from the embedded syntax. The re-lexed line is
bound to a variable that shadows the loop variable inside the `if` block and
is dropped, so the accumulator state after the loop still has an empty id and
value (only `isObsolete` is set), and the entry is then rejected by the
plural-count check. -/
theorem obsolete_lines_are_not_accumulated :
    ParseLine ("#~ msgid \"bar\"") = .ok obsMsgidBarLine
    ∧ ParseLine ("#~ msgstr \"baz\"") = .ok obsMsgstrBazLine
    ∧ peLoop {} [obsMsgidBarLine, obsMsgstrBazLine] = .ok { isObsolete := true }
    ∧ ParseEntry [obsMsgidBarLine, obsMsgstrBazLine] = .err (.entryParse pluralCountZeroMsg) := by
  refine ⟨by rfl, by rfl, by rfl, by rfl⟩

/-! Toolkit lemmas about the token-cursor primitives, used by the plural-rule
theorems below. -/

theorem readNextToken_hit (t : Token) (ts : List Token) (ks : List TokenKind)
    (h : t.Kind ∈ ks) :
    readNextToken (t :: ts) ks = (some (t.Kind, t.Value), ts) := by
  simp [readNextToken, h]

theorem readNextToken_miss (t : Token) (ts : List Token) (ks : List TokenKind)
    (h : t.Kind ∉ ks) :
    readNextToken (t :: ts) ks = (none, t :: ts) := by
  simp [readNextToken, h]

theorem mustReadNextToken_hit (t : Token) (ts : List Token) (ks : List TokenKind)
    (h : t.Kind ∈ ks) :
    mustReadNextToken (t :: ts) ks = .ok ((t.Kind, t.Value), ts) := by
  unfold mustReadNextToken
  rw [readNextToken_hit t ts ks h]

theorem readNumber_cons (v : String) (d : Dec) (ts : List Token)
    (h : decFromString v = some d) :
    readNumber ({ Kind := .number, Value := v } :: ts) = .ok (d, ts) := by
  unfold readNumber
  rw [mustReadNextToken_hit { Kind := .number, Value := v } ts [.number] (by simp)]
  simp [h]

theorem readRange_none (ts : List Token) (h : readNextToken ts [.range] = (none, ts)) :
    readRange ts = .ok ((decZero, false), ts) := by
  unfold readRange
  rw [h]

/-- The closure built by `constructSingleRelation` for a plain (non-range)
single. -/
def singleRel (acc : accessor) (isEqualityOperation : Bool) (number : Dec) : relation :=
  fun o =>
    let result := decEqual (acc o) number
    if isEqualityOperation then result else !result

theorem constructSingleRelation_plain (v : String) (d : Dec) (ts : List Token)
    (acc : accessor) (isEq : Bool)
    (hv : decFromString v = some d) (hr : readNextToken ts [.range] = (none, ts)) :
    constructSingleRelation ({ Kind := .number, Value := v } :: ts) acc isEq
      = .ok (singleRel acc isEq d, ts) := by
  unfold constructSingleRelation
  rw [readNumber_cons v d ts hv]
  simp only [readRange_none ts hr]
  rfl

theorem listRelLoop_done (fuel : Nat) (rel : relation) (acc : accessor) (isEq : Bool)
    (ts : List Token) (h : readNextToken ts [.comma] = (none, ts)) :
    listRelLoop (fuel + 1) rel acc isEq ts = .ok (rel, ts) := by
  unfold listRelLoop
  rw [h]

theorem listRelLoop_comma (fuel : Nat) (rel : relation) (acc : accessor) (isEq : Bool)
    (v : String) (d : Dec) (ts : List Token)
    (hv : decFromString v = some d) (hr : readNextToken ts [.range] = (none, ts)) :
    listRelLoop (fuel + 1) rel acc isEq
        ({ Kind := .comma, Value := "" } :: { Kind := .number, Value := v } :: ts)
      = listRelLoop fuel (fun o => rel o || singleRel acc isEq d o) acc isEq ts := by
  conv_lhs => rw [listRelLoop]
  rw [readNextToken_hit { Kind := .comma, Value := "" } _ [.comma] (by simp)]
  simp only [constructSingleRelation_plain v d ts acc isEq hv hr]

/-- C6: a compiled relation of the form `accessor != a, b` evaluates to
`(accessor != a) OR (accessor != b)`: the inequality sense is applied to each
comma-separated single and the singles are then combined with logical OR, not
as an AND of negations. Stated for any accessor produced by
`constructAccessor` and any two number tokens that parse to `a` and `b`,
where the tokens after the second number neither continue the list (comma)
nor open a range. -/
theorem notEquals_comma_list_compiles_to_or_of_negations
    (ts rest : List Token) (acc : accessor) (sa sb : String) (a b : Dec)
    (hacc : constructAccessor ts = .ok (acc,
      { Kind := .notEquals, Value := "" } :: { Kind := .number, Value := sa }
        :: { Kind := .comma, Value := "" } :: { Kind := .number, Value := sb } :: rest))
    (ha : decFromString sa = some a) (hb : decFromString sb = some b)
    (hnr : readNextToken rest [.range] = (none, rest))
    (hnc : readNextToken rest [.comma] = (none, rest)) :
    ∃ r : relation, constructListRelation ts = .ok (r, rest)
      ∧ ∀ o : operands, r o = (!decEqual (acc o) a || !decEqual (acc o) b) := by
  refine ⟨fun o => (!decEqual (acc o) a) || (!decEqual (acc o) b), ?_, fun o => rfl⟩
  unfold constructListRelation
  simp only [hacc]
  simp only [mustReadNextToken_hit { Kind := .notEquals, Value := "" } _
    [.equals, .notEquals] (by simp)]
  simp only [constructSingleRelation_plain sa a
    ({ Kind := .comma, Value := "" } :: { Kind := .number, Value := sb } :: rest) acc
    (decide (TokenKind.notEquals = TokenKind.equals)) ha
    (readNextToken_miss { Kind := .comma, Value := "" } _ [.range] (by decide))]
  show listRelLoop (rest.length + 2 + 1)
      (singleRel acc (decide (TokenKind.notEquals = TokenKind.equals)) a) acc
      (decide (TokenKind.notEquals = TokenKind.equals))
      ({ Kind := .comma, Value := "" } :: { Kind := .number, Value := sb } :: rest)
    = .ok (fun o => !decEqual (acc o) a || !decEqual (acc o) b, rest)
  rw [listRelLoop_comma (rest.length + 2)
    (singleRel acc (decide (TokenKind.notEquals = TokenKind.equals)) a) acc
    (decide (TokenKind.notEquals = TokenKind.equals)) sb b rest hb hnr]
  show listRelLoop (rest.length + 1 + 1)
      (fun o => singleRel acc (decide (TokenKind.notEquals = TokenKind.equals)) a o
        || singleRel acc (decide (TokenKind.notEquals = TokenKind.equals)) b o) acc
      (decide (TokenKind.notEquals = TokenKind.equals)) rest
    = .ok (fun o => !decEqual (acc o) a || !decEqual (acc o) b, rest)
  rw [listRelLoop_done (rest.length + 1) _ acc _ rest hnc]
  rfl

/-- The token list of the relation `n != 1, 2`. -/
def neListTokens : List Token :=
  [{ Kind := .operandName, Value := "n" }, { Kind := .notEquals, Value := "" },
   { Kind := .number, Value := "1" }, { Kind := .comma, Value := "" },
   { Kind := .number, Value := "2" }]

/-- Evaluates a compiled list relation at one operand value. -/
def listRelResult (r : PRes (relation × List Token)) (o : operands) :
    Option (Bool × List Token) :=
  match r with
  | .ok (rel, ts) => some (rel o, ts)
  | _ => none

/-- Witness for C6: `n != 1, 2` compiled and evaluated at n = 1 yields true
(because 1 ≠ 2), exhibiting the OR-of-negations semantics. -/
theorem notEquals_comma_list_witness :
    listRelResult (constructListRelation neListTokens)
        (createOperands { man := 1, exp := 0 }) = some (true, []) := by
  obtain ⟨r, h1, h2⟩ := notEquals_comma_list_compiles_to_or_of_negations
    neListTokens [] (fun o => o.N) "1" "2" { man := 1, exp := 0 } { man := 2, exp := 0 }
    rfl rfl rfl rfl rfl
  simp only [listRelResult, h1, h2 (createOperands { man := 1, exp := 0 })]
  decide

/-- The sample clause returned by `tokenizePluralRule` for a rule string. -/
def ruleSampleString (r : String) : String :=
  match tokenizePluralRule r with
  | .ok (_, s) => s
  | _ => ""

theorem ruleSampleString_eq (r : String) (tokens : List Token) (sample : String)
    (h : tokenizePluralRule r = .ok (tokens, sample)) : ruleSampleString r = sample := by
  unfold ruleSampleString
  rw [h]

/-- Evaluates a compiled rule at one number. -/
def ruleOpResult (r : PRes (Option PluralRuleOperation)) (d : Dec) : Option Bool :=
  match r with
  | .ok (some p) => some (p d)
  | _ => none

/-- C8: (1) for every rule string whose compilation succeeds, the compiled
predicate returns true on every expanded sample of the rule's own sample
clause; (2) if some expanded sample fails a predicate, `validatePluralRule`
yields a `PluralRuleValidationError` carrying the rule text and exactly the
failing samples, in order; (3) when the compiled relation reaches validation
and validation yields such an error, `parsePluralRule` fails with that very
error value (the Go code panics with it). -/
theorem compiled_rule_satisfies_its_own_samples :
    (∀ (r : String) (p : PluralRuleOperation) (samples : List Dec),
        parsePluralRule r = .ok (some p) →
        parsePluralRuleSample (ruleSampleString r) = .ok samples →
        ∀ d ∈ samples, p d = true)
    ∧ (∀ (p : PluralRuleOperation) (ss rs : String) (samples : List Dec),
        parsePluralRuleSample ss = .ok samples →
        (samples.filter fun s => !(p s)) ≠ [] →
        validatePluralRule p ss rs
          = .ok (some { RuleString := rs
                        InvalidSamples := samples.filter fun s => !(p s) }))
    ∧ (∀ (r : String) (tokens : List Token) (sample : String)
        (rel0 rel : relation) (rest0 restF : List Token) (e : PluralRuleValidationError),
        r.length ≠ 0 →
        tokenizePluralRule r = .ok (tokens, sample) →
        tokens.length ≠ 0 →
        constructAndConditionChain tokens = .ok (rel0, rest0) →
        orChainLoop (rest0.length + 1) rel0 rest0 = .ok (rel, restF) →
        ¬ restF.length > 0 →
        validatePluralRule (fun d => rel (createOperands d)) sample r = .ok (some e) →
        parsePluralRule r = .panicsValidation e) := by
  refine ⟨?_, ?_, ?_⟩
  · intro r p samples h hs
    unfold parsePluralRule at h
    split at h
    · cases h
    · split at h
      · cases h
      · cases h
      · rename_i tokens sample heq
        rw [ruleSampleString_eq r tokens sample heq] at hs
        split at h
        · obtain ⟨rfl⟩ : (fun _ : Dec => true) = p := by injection h with h'; injection h'
          intro d _
          rfl
        · split at h
          · cases h
          · cases h
          · split at h
            · cases h
            · cases h
            · split at h
              · cases h
              · split at h
                · cases h
                · cases h
                · cases h
                · rename_i hval
                  obtain ⟨rfl⟩ : _ = p := by injection h with h'; injection h'
                  unfold validatePluralRule at hval
                  split at hval
                  · cases hval
                  · cases hval
                  · rename_i samples' hsamples'
                    rw [hsamples'] at hs
                    injection hs with hs'
                    subst hs'
                    split at hval
                    · cases hval
                    · rename_i hlen
                      intro d hd
                      have hnil := List.length_eq_zero.mp (Nat.eq_zero_of_not_pos hlen)
                      have := List.filter_eq_nil_iff.mp hnil d hd
                      simpa using this
  · intro p ss rs samples hs hf
    unfold validatePluralRule
    rw [hs]
    have : (samples.filter fun s => !(p s)).length > 0 := List.length_pos.mpr hf
    simp [this]
  · intro r tokens sample rel0 rel rest0 restF e hr0 htok hne hchain hor hrest hval
    unfold parsePluralRule
    simp only [if_neg hr0, htok, if_neg hne, hchain, hor, if_neg hrest, hval]

/-- Witness for C8: the rule `n = 1 @integer 1` compiles and its predicate
accepts its own sample 1; a predicate failing the sample `1` yields the
validation error with the full failing list; and `n = 2 @integer 1` fails
compilation with the validation error carrying its rule text and the
sample 1. -/
theorem compiled_rule_samples_witness :
    ruleOpResult (parsePluralRule ("n = 1 @integer 1")) { man := 1, exp := 0 } = some true
    ∧ validatePluralRule (fun _ => false) ("@integer 1") ("n = 2 @integer 1")
        = .ok (some { RuleString := "n = 2 @integer 1"
                      InvalidSamples := [{ man := 1, exp := 0 }] })
    ∧ parsePluralRule ("n = 2 @integer 1")
        = .panicsValidation { RuleString := "n = 2 @integer 1"
                              InvalidSamples := [{ man := 1, exp := 0 }] } := by
  obtain ⟨h1, h2, h3⟩ := compiled_rule_satisfies_its_own_samples
  refine ⟨?_, ?_, ?_⟩
  · have ha := h1 ("n = 1 @integer 1") _ [{ man := 1, exp := 0 }] rfl rfl
    have hb := ha { man := 1, exp := 0 } (by simp)
    calc ruleOpResult (parsePluralRule ("n = 1 @integer 1")) { man := 1, exp := 0 }
        = some ((fun d => singleRel (fun o => o.N) true { man := 1, exp := 0 } (createOperands d))
            { man := 1, exp := 0 }) := rfl
      _ = some true := by rw [← hb]; rfl
  · exact h2 (fun _ => false) ("@integer 1") ("n = 2 @integer 1") [{ man := 1, exp := 0 }]
      rfl (by decide)
  · exact h3 ("n = 2 @integer 1")
      [{ Kind := .operandName, Value := "n" }, { Kind := .equals, Value := "" },
       { Kind := .number, Value := "2" }] ("@integer 1") _ _ [] [] _
      (by decide) rfl (by decide) rfl rfl (by decide) rfl

/-- C7 (failing-input evaluation): expanding the sample range `0.1~0.9`
produces no intermediate values at all — only the literal low bound `0.1`
parsed before the `~` — because the increment is computed as
`decimal.New(1, 0).Pow(v.Neg())`, i.e. `1^(-v) = 1`, not `10^(-v)`; the first
candidate `0.1 + 1 = 1.1` already exceeds the high bound. The integer range
`4~19` happens to work because there the intended increment is also 1. -/
theorem decimal_sample_range_expands_to_nothing :
    parsePluralRuleSample ("0.1~0.9") = .ok [{ man := 1, exp := -1 }]
    ∧ parsePluralRuleSample ("4~19")
        = .ok ((List.range 16).map fun i => { man := (4 + i : Int), exp := 0 }) := by
  refine ⟨by rfl, by rfl⟩

/-! ## C3: line recomposition and the escape codec -/

theorem hexDigitChar_facts :
    ∀ m : Nat, m < 32 →
      isLowerHex (hexDigitChar (m / 16)) = true
      ∧ isLowerHex (hexDigitChar (m % 16)) = true
      ∧ hexVal (hexDigitChar (m / 16)) * 16 + hexVal (hexDigitChar (m % 16)) = m := by
  decide

theorem hexStep (m : Nat) (hm : m < 32) (f : Nat) (r' : List Char) :
    unescapeGo (f + 1) ('\\' :: 'x' :: hexDigitChar (m / 16) :: hexDigitChar (m % 16) :: r')
      = (fun rr => Char.ofNat m :: rr) <$> unescapeGo f r' := by
  obtain ⟨p1, p2, p3⟩ := hexDigitChar_facts m hm
  rw [show unescapeGo (f + 1) ('\\' :: 'x' :: hexDigitChar (m / 16) :: hexDigitChar (m % 16) :: r')
      = (if isLowerHex (hexDigitChar (m / 16)) && isLowerHex (hexDigitChar (m % 16))
         then (fun rr => Char.ofNat (clampInt8 (hexVal (hexDigitChar (m / 16)) * 16 + hexVal (hexDigitChar (m % 16)))) :: rr) <$> unescapeGo f r'
         else (fun rr => Char.ofNat 0 :: rr) <$> unescapeGo f (hexDigitChar (m / 16) :: hexDigitChar (m % 16) :: r')) from rfl]
  rw [p1, p2, p3]
  have hcl : clampInt8 m = m := by
    unfold clampInt8
    have h127 : ¬ m > 127 := by omega
    simp [h127]
  rw [hcl]
  simp

theorem escape_unescape_aux :
    ∀ (s : List Char) (fuel : Nat) (r : List Char),
      (∀ c ∈ s, c ≠ '\\') →
      escapeChars s = some r → r.length ≤ fuel →
      unescapeGo fuel r = some s := by
  intro s
  induction s with
  | nil =>
    intro fuel r _ he _
    obtain rfl : r = [] := by simpa [escapeChars] using he.symm
    cases fuel <;> rfl
  | cons c s' ih =>
    intro fuel r hc he hf
    have hbind : ∃ l, escChar c = some l ∧ ∃ r', escapeChars s' = some r' ∧ r = l ++ r' := by
      cases hesc : escChar c with
      | none => simp [escapeChars, hesc] at he
      | some l =>
        cases hrest : escapeChars s' with
        | none => simp [escapeChars, hesc, hrest] at he
        | some r' =>
          refine ⟨l, rfl, r', rfl, ?_⟩
          simp only [escapeChars, hesc, hrest, Option.pure_def, Option.bind_eq_bind,
            Option.some_bind] at he
          exact (Option.some_inj.mp he).symm
    obtain ⟨l, hl, r', hr', rfl⟩ := hbind
    have hcbs : c ≠ '\\' := hc c (by simp)
    have hcs' : ∀ x ∈ s', x ≠ '\\' := fun x hx => hc x (by simp [hx])
    have hlen : ∀ k f, fuel = f + 1 → l.length = k + 1 → r'.length ≤ f := by
      intro k f hfu hk
      rw [List.length_append, hk, hfu] at hf
      omega
    have hfuel : ∀ k, l.length = k + 1 → ∃ f, fuel = f + 1 := by
      intro k hk
      cases fuel with
      | zero => rw [List.length_append, hk] at hf; omega
      | succ f => exact ⟨f, rfl⟩
    unfold escChar at hl
    by_cases h1 : c = '\x07'
    · rw [if_pos h1] at hl
      subst h1
      injection hl with hl'
      subst hl'
      obtain ⟨f, rfl⟩ := hfuel 1 rfl
      show (fun rr => '\x07' :: rr) <$> unescapeGo f r' = some ('\x07' :: s')
      rw [ih f r' hcs' hr' (hlen 1 f rfl rfl)]
      rfl
    rw [if_neg h1] at hl
    by_cases h2 : c = '\x08'
    · rw [if_pos h2] at hl
      subst h2
      injection hl with hl'
      subst hl'
      obtain ⟨f, rfl⟩ := hfuel 1 rfl
      show (fun rr => '\x08' :: rr) <$> unescapeGo f r' = some ('\x08' :: s')
      rw [ih f r' hcs' hr' (hlen 1 f rfl rfl)]
      rfl
    rw [if_neg h2] at hl
    by_cases h3 : c = '\x1b'
    · rw [if_pos h3] at hl
      subst h3
      injection hl with hl'
      subst hl'
      obtain ⟨f, rfl⟩ := hfuel 1 rfl
      show (fun rr => '\x1b' :: rr) <$> unescapeGo f r' = some ('\x1b' :: s')
      rw [ih f r' hcs' hr' (hlen 1 f rfl rfl)]
      rfl
    rw [if_neg h3] at hl
    by_cases h4 : c = '\x0c'
    · rw [if_pos h4] at hl
      subst h4
      injection hl with hl'
      subst hl'
      obtain ⟨f, rfl⟩ := hfuel 1 rfl
      show (fun rr => '\x0c' :: rr) <$> unescapeGo f r' = some ('\x0c' :: s')
      rw [ih f r' hcs' hr' (hlen 1 f rfl rfl)]
      rfl
    rw [if_neg h4] at hl
    by_cases h5 : c = '\n'
    · rw [if_pos h5] at hl
      subst h5
      injection hl with hl'
      subst hl'
      obtain ⟨f, rfl⟩ := hfuel 1 rfl
      show (fun rr => '\n' :: rr) <$> unescapeGo f r' = some ('\n' :: s')
      rw [ih f r' hcs' hr' (hlen 1 f rfl rfl)]
      rfl
    rw [if_neg h5] at hl
    by_cases h6 : c = '\r'
    · rw [if_pos h6] at hl
      subst h6
      injection hl with hl'
      subst hl'
      obtain ⟨f, rfl⟩ := hfuel 1 rfl
      show (fun rr => '\r' :: rr) <$> unescapeGo f r' = some ('\r' :: s')
      rw [ih f r' hcs' hr' (hlen 1 f rfl rfl)]
      rfl
    rw [if_neg h6] at hl
    by_cases h7 : c = '\t'
    · rw [if_pos h7] at hl
      subst h7
      injection hl with hl'
      subst hl'
      obtain ⟨f, rfl⟩ := hfuel 1 rfl
      show (fun rr => '\t' :: rr) <$> unescapeGo f r' = some ('\t' :: s')
      rw [ih f r' hcs' hr' (hlen 1 f rfl rfl)]
      rfl
    rw [if_neg h7] at hl
    by_cases h8 : c = '\x0b'
    · rw [if_pos h8] at hl
      subst h8
      injection hl with hl'
      subst hl'
      obtain ⟨f, rfl⟩ := hfuel 1 rfl
      show (fun rr => '\x0b' :: rr) <$> unescapeGo f r' = some ('\x0b' :: s')
      rw [ih f r' hcs' hr' (hlen 1 f rfl rfl)]
      rfl
    rw [if_neg h8] at hl
    by_cases h9 : c = '|'
    · rw [if_pos h9] at hl
      exact Option.noConfusion hl
    rw [if_neg h9] at hl
    by_cases h10 : c = '"'
    · rw [if_pos h10] at hl
      subst h10
      injection hl with hl'
      subst hl'
      obtain ⟨f, rfl⟩ := hfuel 1 rfl
      show (fun rr => '"' :: rr) <$> unescapeGo f r' = some ('"' :: s')
      rw [ih f r' hcs' hr' (hlen 1 f rfl rfl)]
      rfl
    rw [if_neg h10] at hl
    by_cases h11 : c.toNat < 32
    · rw [if_pos h11] at hl
      injection hl with hl'
      subst hl'
      obtain ⟨f, rfl⟩ := hfuel 3 rfl
      show unescapeGo (f + 1)
          ('\\' :: 'x' :: hexDigitChar (c.toNat / 16) :: hexDigitChar (c.toNat % 16) :: r')
          = some (c :: s')
      rw [hexStep c.toNat h11 f r', ih f r' hcs' hr' (hlen 3 f rfl rfl)]
      show some (Char.ofNat c.toNat :: s') = some (c :: s')
      rw [Char.ofNat_toNat]
    rw [if_neg h11] at hl
    injection hl with hl'
    subst hl'
    obtain ⟨f, rfl⟩ := hfuel 0 rfl
    show unescapeGo (f + 1) (c :: r') = some (c :: s')
    rw [show unescapeGo (f + 1) (c :: r')
        = if c = '\\' then unescapeEsc (unescapeGo f) r'
          else (fun rr => c :: rr) <$> unescapeGo f r' from rfl]
    rw [if_neg hcbs, ih f r' hcs' hr' (hlen 0 f rfl rfl)]
    rfl

theorem escChar_some (c : Char) (hp : c ≠ '|') : (escChar c).isSome = true := by
  unfold escChar
  by_cases h1 : c = '\x07'
  · rw [if_pos h1]; rfl
  rw [if_neg h1]
  by_cases h2 : c = '\x08'
  · rw [if_pos h2]; rfl
  rw [if_neg h2]
  by_cases h3 : c = '\x1b'
  · rw [if_pos h3]; rfl
  rw [if_neg h3]
  by_cases h4 : c = '\x0c'
  · rw [if_pos h4]; rfl
  rw [if_neg h4]
  by_cases h5 : c = '\n'
  · rw [if_pos h5]; rfl
  rw [if_neg h5]
  by_cases h6 : c = '\r'
  · rw [if_pos h6]; rfl
  rw [if_neg h6]
  by_cases h7 : c = '\t'
  · rw [if_pos h7]; rfl
  rw [if_neg h7]
  by_cases h8 : c = '\x0b'
  · rw [if_pos h8]; rfl
  rw [if_neg h8]
  rw [if_neg hp]
  by_cases h10 : c = '"'
  · rw [if_pos h10]; rfl
  rw [if_neg h10]
  by_cases h11 : c.toNat < 32
  · rw [if_pos h11]; rfl
  rw [if_neg h11]; rfl

theorem escapeChars_some (s : List Char) (h : ∀ c ∈ s, c ≠ '|') :
    ∃ r, escapeChars s = some r := by
  induction s with
  | nil => exact ⟨[], rfl⟩
  | cons c s' ih =>
    obtain ⟨l, hl⟩ := Option.isSome_iff_exists.mp (escChar_some c (h c (by simp)))
    obtain ⟨r', hr'⟩ := ih fun x hx => h x (by simp [hx])
    exact ⟨l ++ r', by simp [escapeChars, hl, hr']⟩

def lineRecompose (r : DRes Line) : Option String :=
  match r with
  | .ok l => (CompleteLine l.Keyword l.Value l.Comment).map fun l2 => l2.RawLine
  | _ => none

/-- C3 (amended): the second half of the claim holds on the character set the
codec actually covers: for a value string with no backslash and no pipe
character, escaping succeeds, unescaping the escaped raw text gives back the
original string, and re-escaping produces the same raw text again, so the
codec is a two-way inverse there. Unrestricted, the claim fails: see the
counterexample theorem. -/
theorem escape_codec_two_way_inverse (s : List Char)
    (h : ∀ c ∈ s, c ≠ '\\' ∧ c ≠ '|') :
    ∃ r, escapeChars s = some r ∧ unescapeChars r = some s
      ∧ escapeChars s = some r := by
  obtain ⟨r, hr⟩ := escapeChars_some s fun c hc => (h c hc).2
  refine ⟨r, hr, ?_, hr⟩
  have hlen : r.length ≤ r.length := le_rfl
  exact escape_unescape_aux s r.length r (fun c hc => (h c hc).1) hr hlen

theorem escape_codec_two_way_inverse_witness :
    (∀ c ∈ ("a\"b\n\x01z".data), c ≠ '\\' ∧ c ≠ '|')
    ∧ ∃ r, escapeChars ("a\"b\n\x01z".data) = some r
        ∧ unescapeChars r = some ("a\"b\n\x01z".data)
        ∧ escapeChars ("a\"b\n\x01z".data) = some r :=
  ⟨by decide, escape_codec_two_way_inverse ("a\"b\n\x01z".data) (by decide)⟩

/-- C3 counterexample: recomposing the parts of the accepted line " #c" via
CompleteLine yields "#c", not the byte-identical source text " #c"; and the
codec is not a two-way inverse on the full quoted grammar: the two-character
value backslash-a survives escaping unchanged (the Go pattern escapes the
pipe, not the backslash, so a backslash is never doubled) and unescaping then
collapses it to the single character BEL. -/
theorem line_recompose_codec_counterexample :
    lineRecompose (ParseLine " #c") = some "#c"
    ∧ ("#c" : String) ≠ " #c"
    ∧ (escapeChars ['\\', 'a']).bind unescapeChars = some ['\x07']
    ∧ (['\x07'] : List Char) ≠ ['\\', 'a'] :=
  ⟨rfl, by decide, rfl, by decide⟩

/-! ## C4: the entry-boundary comment split of StartNextEntry -/

def pushAll (ctx : documentParsingContext) (ls : List Line) : documentParsingContext :=
  { ctx with currentEntryLines := ctx.currentEntryLines ++ ls }

theorem snLoop_true (ls : List Line) : ∀ ctx, snLoop ls true ctx = .ok (pushAll ctx ls, true) := by
  induction ls with
  | nil =>
    intro ctx
    show DRes.ok (ctx, true) = .ok (pushAll ctx [], true)
    simp [pushAll]
  | cons l rest ih =>
    intro ctx
    calc snLoop (l :: rest) true ctx = snLoop rest true (ctx.PushLine l) := rfl
    _ = .ok (pushAll (ctx.PushLine l) rest, true) := ih _
    _ = .ok (pushAll ctx (l :: rest), true) := by
        simp [pushAll, documentParsingContext.PushLine, List.append_assoc]

theorem snLoop_cons_skip (l : Line) (rest : List Line) (ctx : documentParsingContext)
    (hl : l.IsWhiteSpace = false) :
    snLoop (l :: rest) false ctx = snLoop rest false (ctx.PushLine l) := by
  conv_lhs => rw [snLoop]
  rw [if_neg]
  simp [hl]

theorem snLoop_cons_finish (l : Line) (rest : List Line) (ctx : documentParsingContext)
    (hl : l.IsWhiteSpace = true) :
    snLoop (l :: rest) false ctx
      = match ctx.FinishCurrentEntry with
        | .panics m => .panics m
        | .err e => .err e
        | .ok ctx2 => snLoop rest true (ctx2.PushLine l) := by
  have hc : (!false && l.IsWhiteSpace) = true := by simp [hl]
  conv_lhs => rw [snLoop]
  rw [if_pos hc]

theorem snLoop_false_nows (ls : List Line) : ∀ ctx : documentParsingContext,
    (∀ l ∈ ls, l.IsWhiteSpace = false) →
    snLoop ls false ctx = .ok (pushAll ctx ls, false) := by
  induction ls with
  | nil =>
    intro ctx _
    show DRes.ok (ctx, false) = .ok (pushAll ctx [], false)
    simp [pushAll]
  | cons l rest ih =>
    intro ctx h
    rw [snLoop_cons_skip l rest ctx (h l (by simp)),
      ih (ctx.PushLine l) fun x hx => h x (by simp [hx])]
    simp [pushAll, documentParsingContext.PushLine, List.append_assoc]

theorem snLoop_false_ws (pre : List Line) : ∀ (l : Line) (rest : List Line)
    (ctx : documentParsingContext),
    (∀ x ∈ pre, x.IsWhiteSpace = false) → l.IsWhiteSpace = true →
    snLoop (pre ++ l :: rest) false ctx
      = match (pushAll ctx pre).FinishCurrentEntry with
        | .panics m => .panics m
        | .err e => .err e
        | .ok ctx2 => .ok (pushAll ctx2 (l :: rest), true) := by
  induction pre with
  | nil =>
    intro l rest ctx _ hl
    rw [List.nil_append, snLoop_cons_finish l rest ctx hl]
    have hpa : pushAll ctx [] = ctx := by simp [pushAll]
    rw [hpa]
    cases hfc : ctx.FinishCurrentEntry with
    | panics m => rfl
    | err e => rfl
    | ok ctx2 =>
      show snLoop rest true (ctx2.PushLine l) = .ok (pushAll ctx2 (l :: rest), true)
      rw [snLoop_true rest (ctx2.PushLine l)]
      simp [pushAll, documentParsingContext.PushLine, List.append_assoc]
  | cons x pre' ih =>
    intro l rest ctx hpre hl
    rw [List.cons_append, snLoop_cons_skip x (pre' ++ l :: rest) ctx (hpre x (by simp)),
      ih l rest (ctx.PushLine x) (fun y hy => hpre y (by simp [hy])) hl]
    have hpa : pushAll (ctx.PushLine x) pre' = pushAll ctx (x :: pre') := by
      simp [pushAll, documentParsingContext.PushLine, List.append_assoc]
    rw [hpa]

theorem ParseEntry_ok_lines (lines : List Line) (e : Entry)
    (h : ParseEntry lines = .ok e) : e.Lines = lines := by
  unfold ParseEntry at h
  split at h
  · exact absurd h (by simp)
  · exact absurd h (by simp)
  split at h
  · exact absurd h (by simp)
  split at h
  · exact absurd h (by simp)
  split at h
  · exact absurd h (by simp)
  split at h
  · exact absurd h (by simp)
  split at h
  · exact absurd h (by simp)
  split at h
  · exact absurd h (by simp)
  injection h with h'
  rw [← h']

theorem FinishCurrentEntry_spec (ctx ctx' : documentParsingContext)
    (h : ctx.FinishCurrentEntry = .ok ctx') :
    ctx'.currentCommentBlock = ctx.currentCommentBlock
    ∧ ctx'.currentEntryLines = []
    ∧ ctx'.Entries.map (fun e => e.Lines)
        = ctx.Entries.map (fun e => e.Lines) ++ [ctx.currentEntryLines] := by
  unfold documentParsingContext.FinishCurrentEntry at h
  split at h
  · exact absurd h (by simp)
  · exact absurd h (by simp)
  rename_i entry hpe
  split at h
  · exact absurd h (by simp)
  injection h with h'
  subst h'
  refine ⟨rfl, rfl, ?_⟩
  simp [ParseEntry_ok_lines ctx.currentEntryLines entry hpe]

theorem dropWhile_head_false (p : Line → Bool) :
    ∀ (B : List Line) (x : Line) (rest : List Line),
      List.dropWhile p B = x :: rest → p x = false := by
  intro B
  induction B with
  | nil => intro x rest h; cases h
  | cons b B' ih =>
    intro x rest h
    rw [List.dropWhile_cons] at h
    by_cases hb : p b = true
    · rw [if_pos hb] at h; exact ih x rest h
    · rw [if_neg hb] at h
      injection h with h1 h2
      subst h1
      simpa using hb

/-- C4: at an entry boundary, StartNextEntry splits the pending
comment/whitespace block at its first whitespace-only line: the lines before
it are committed to the entry that is ending (appended to its lines and
parsed into the finished entry), while the whitespace line and everything
after it become the current lines of the new entry; with no whitespace-only
line in the block, the entire block is committed to the ending entry and the
new entry starts empty. -/
theorem entry_boundary_comment_split (ctx ctx' : documentParsingContext)
    (h : ctx.StartNextEntry = .ok ctx') :
    ctx'.currentCommentBlock = []
    ∧ ctx'.currentEntryLines
        = ctx.currentCommentBlock.dropWhile (fun l => !l.IsWhiteSpace)
    ∧ ctx'.Entries.map (fun e => e.Lines)
        = ctx.Entries.map (fun e => e.Lines)
          ++ [ctx.currentEntryLines
               ++ ctx.currentCommentBlock.takeWhile (fun l => !l.IsWhiteSpace)] := by
  unfold documentParsingContext.StartNextEntry at h
  cases hpost : ctx.currentCommentBlock.dropWhile (fun l => !l.IsWhiteSpace) with
  | nil =>
    have hall : ∀ l ∈ ctx.currentCommentBlock, l.IsWhiteSpace = false := by
      intro l hlmem
      have := List.dropWhile_eq_nil_iff.mp hpost l hlmem
      simpa using this
    have htake : ctx.currentCommentBlock.takeWhile (fun l => !l.IsWhiteSpace)
        = ctx.currentCommentBlock := by
      have hh := List.takeWhile_append_dropWhile
        (fun l : Line => !l.IsWhiteSpace) ctx.currentCommentBlock
      rw [hpost, List.append_nil] at hh
      exact hh
    rw [snLoop_false_nows ctx.currentCommentBlock ctx hall] at h
    have h2 : ({ pushAll ctx ctx.currentCommentBlock with
        currentCommentBlock := [] }).FinishCurrentEntry = .ok ctx' := h
    obtain ⟨hcb, hcel, hent⟩ := FinishCurrentEntry_spec _ _ h2
    refine ⟨by rw [hcb], by rw [hcel], ?_⟩
    rw [hent]
    simp [pushAll, htake]
  | cons l rest =>
    have hl : l.IsWhiteSpace = true := by
      have := dropWhile_head_false _ ctx.currentCommentBlock l rest hpost
      simpa using this
    have hpre : ∀ x ∈ ctx.currentCommentBlock.takeWhile (fun l => !l.IsWhiteSpace),
        x.IsWhiteSpace = false := by
      intro x hx
      have := List.mem_takeWhile_imp hx
      simpa using this
    have hsplit : ctx.currentCommentBlock.takeWhile (fun l => !l.IsWhiteSpace) ++ l :: rest
        = ctx.currentCommentBlock := by
      have hh := List.takeWhile_append_dropWhile
        (fun l : Line => !l.IsWhiteSpace) ctx.currentCommentBlock
      rw [hpost] at hh
      exact hh
    have hsn : snLoop ctx.currentCommentBlock false ctx
        = match (pushAll ctx (ctx.currentCommentBlock.takeWhile
              (fun l => !l.IsWhiteSpace))).FinishCurrentEntry with
          | .panics m => .panics m
          | .err e => .err e
          | .ok ctx2 => .ok (pushAll ctx2 (l :: rest), true) := by
      conv_lhs => rw [← hsplit]
      exact snLoop_false_ws _ l rest ctx hpre hl
    rw [hsn] at h
    cases hfc : (pushAll ctx (ctx.currentCommentBlock.takeWhile
        (fun l => !l.IsWhiteSpace))).FinishCurrentEntry with
    | panics m => rw [hfc] at h; exact DRes.noConfusion h
    | err e => rw [hfc] at h; exact DRes.noConfusion h
    | ok c2 =>
      rw [hfc] at h
      have h2 : (DRes.ok { pushAll c2 (l :: rest) with currentCommentBlock := [] }
          : DRes documentParsingContext) = DRes.ok ctx' := h
      injection h2 with h3
      obtain ⟨hcb, hcel, hent⟩ := FinishCurrentEntry_spec _ _ hfc
      subst h3
      refine ⟨rfl, ?_, ?_⟩
      · show (pushAll c2 (l :: rest)).currentEntryLines = _
        simp [pushAll, hcel, hpost]
      · show (pushAll c2 (l :: rest)).Entries.map (fun e => e.Lines) = _
        have hE : (pushAll c2 (l :: rest)).Entries = c2.Entries := rfl
        rw [hE, hent]
        simp [pushAll]

def ctxOrDefault (r : DRes documentParsingContext) : documentParsingContext :=
  match r with
  | .ok c => c
  | _ => {}

def kwValueLine (kw : String) (v : String) : Line :=
  { Keyword := SimpleKeyword kw
    Value := { IsEmpty := false, Raw := v, Value := v }
    Comment := emptyComment
    RawLine := kw ++ " \"" ++ v ++ "\""
    IsCommentOrWhiteSpace := false, IsWhiteSpace := false
    IsComment := false, IsMarkedObsolete := false }

def idxValueLine (kw : String) (i : Nat) (v : String) : Line :=
  { Keyword := IndexedKeyword kw i
    Value := { IsEmpty := false, Raw := v, Value := v }
    Comment := emptyComment
    RawLine := kw ++ "[" ++ toString i ++ "] \"" ++ v ++ "\""
    IsCommentOrWhiteSpace := false, IsWhiteSpace := false
    IsComment := false, IsMarkedObsolete := false }

def trailingCommentLine : Line :=
  { Keyword := emptyKeyword, Value := emptyLineValue
    Comment := { IsEmpty := false, Comment := " trailing comment" }
    RawLine := "# trailing comment"
    IsCommentOrWhiteSpace := true, IsWhiteSpace := false
    IsComment := true, IsMarkedObsolete := false }

def boundaryDemoCtx : documentParsingContext :=
  { currentEntryLines :=
      [kwValueLine "msgid" "foo", kwValueLine "msgid_plural" "foos", idxValueLine "msgstr" 0 "bar"]
    currentCommentBlock := [trailingCommentLine] }

theorem entry_boundary_comment_split_witness :
    boundaryDemoCtx.StartNextEntry = .ok (ctxOrDefault boundaryDemoCtx.StartNextEntry)
    ∧ ((ctxOrDefault boundaryDemoCtx.StartNextEntry).currentCommentBlock = []
       ∧ (ctxOrDefault boundaryDemoCtx.StartNextEntry).currentEntryLines
           = boundaryDemoCtx.currentCommentBlock.dropWhile (fun l => !l.IsWhiteSpace)
       ∧ (ctxOrDefault boundaryDemoCtx.StartNextEntry).Entries.map (fun e => e.Lines)
           = boundaryDemoCtx.Entries.map (fun e => e.Lines)
             ++ [boundaryDemoCtx.currentEntryLines
                  ++ boundaryDemoCtx.currentCommentBlock.takeWhile (fun l => !l.IsWhiteSpace)]) :=
  ⟨rfl, entry_boundary_comment_split boundaryDemoCtx (ctxOrDefault boundaryDemoCtx.StartNextEntry) rfl⟩

/-! ## C9: the plural-index invariants of ParseEntry -/

theorem extractPlurals_length :
    ∀ (n : Nat) (pv : List (Nat × String)) (pvs : List String),
      extractPlurals pv n = some pvs → pvs.length = n := by
  intro n
  induction n with
  | zero =>
    intro pv pvs h
    obtain rfl : pvs = [] := by simpa [extractPlurals] using h.symm
    rfl
  | succ n ih =>
    intro pv pvs h
    simp only [extractPlurals, Option.bind_eq_bind, Option.pure_def] at h
    cases hi : extractPlurals pv n with
    | none => simp [hi] at h
    | some init =>
      cases hv : pv.lookup n with
      | none => simp [hi, hv] at h
      | some v =>
        simp only [hi, hv, Option.some_bind] at h
        obtain rfl : init ++ [v] = pvs := Option.some_inj.mp h
        simp [ih pv init hi]

theorem extractPlurals_lookup :
    ∀ (n : Nat) (pv : List (Nat × String)) (pvs : List String),
      extractPlurals pv n = some pvs → ∀ m, m < n → (pv.lookup m).isSome = true := by
  intro n
  induction n with
  | zero => intro pv pvs _ m hm; omega
  | succ n ih =>
    intro pv pvs h m hm
    simp only [extractPlurals, Option.bind_eq_bind, Option.pure_def] at h
    cases hi : extractPlurals pv n with
    | none => simp [hi] at h
    | some init =>
      cases hv : pv.lookup n with
      | none => simp [hi, hv] at h
      | some v =>
        by_cases hmn : m < n
        · exact ih pv init hi m hmn
        · have hmeq : m = n := by omega
          rw [hmeq, hv]
          rfl

theorem lookup_isSome_mem :
    ∀ (pv : List (Nat × String)) (i : Nat),
      (pv.lookup i).isSome = true → i ∈ pv.map Prod.fst := by
  intro pv
  induction pv with
  | nil => intro i h; simp [List.lookup] at h
  | cons kv t ih =>
    intro i h
    rw [List.lookup_cons] at h
    by_cases hik : (i == kv.1) = true
    · simp only [beq_iff_eq] at hik
      simp [hik]
    · rw [Bool.not_eq_true] at hik
      rw [hik] at h
      have hmem := ih i h
      simp only [List.map_cons, List.mem_cons]
      exact Or.inr hmem

/-- C9: for every entry the assembler produces, the recorded plural indices
(the keys of the pluralValues map built from the msgstr[n] lines) have no
duplicates and form exactly the contiguous range 0..=maxPluralIndex, whose
size is the length of the extracted PluralValues sequence; the plural-id
marker (shouldBePlural, set by a msgid_plural line) holds exactly when that
sequence is non-empty. Scenario C: an entry with msgid_plural but no
msgstr[n] lines is rejected with the plural-count EntryParseError. -/
theorem plural_indices_exactly_contiguous_range
    (lines : List Line) (s : PEState) (e : Entry)
    (hs : peLoop {} lines = .ok s)
    (he : ParseEntry lines = .ok e) :
    ((s.pluralValues.map Prod.fst).Nodup
      ∧ (s.pluralValues.map Prod.fst).toFinset = Finset.range (s.maxPluralIndex + 1)
      ∧ e.PluralValues.length = s.maxPluralIndex + 1
      ∧ (e.PluralValues ≠ [] ↔ s.shouldBePlural = true))
    ∧ ParseEntry [kwValueLine "msgid" "bar", kwValueLine "msgid_plural" "bars"]
        = .err (.entryParse pluralCountZeroMsg) := by
  unfold ParseEntry at he
  simp only [hs] at he
  split at he
  · exact absurd he (by simp)
  split at he
  · exact absurd he (by simp)
  rename_i hlen0
  split at he
  · exact absurd he (by simp)
  split at he
  · exact absurd he (by simp)
  rename_i hsbp0
  split at he
  · exact absurd he (by simp)
  split at he
  · exact absurd he (by simp)
  rename_i pvs hex
  injection he with he'
  subst he'
  have hL : s.pluralValues.length = s.maxPluralIndex + 1 := not_not.mp hlen0
  have hsb : s.shouldBePlural = true := by
    cases hb : s.shouldBePlural
    · exfalso
      apply hsbp0
      rw [hb, hL]
      simp
    · rfl
  have hlenpvs : pvs.length = s.pluralValues.length :=
    extractPlurals_length s.pluralValues.length s.pluralValues pvs hex
  have hsub : Finset.range (s.maxPluralIndex + 1)
      ⊆ (s.pluralValues.map Prod.fst).toFinset := by
    intro m hm
    rw [Finset.mem_range] at hm
    have hx := extractPlurals_lookup s.pluralValues.length s.pluralValues pvs hex m
      (by omega)
    exact List.mem_toFinset.mpr (lookup_isSome_mem s.pluralValues m hx)
  have hkeylen : (s.pluralValues.map Prod.fst).length = s.maxPluralIndex + 1 := by
    rw [List.length_map, hL]
  have hcardle : (s.pluralValues.map Prod.fst).toFinset.card ≤ s.maxPluralIndex + 1 := by
    calc (s.pluralValues.map Prod.fst).toFinset.card
        ≤ (s.pluralValues.map Prod.fst).length := List.toFinset_card_le _
    _ = s.maxPluralIndex + 1 := hkeylen
  have heqset : Finset.range (s.maxPluralIndex + 1)
      = (s.pluralValues.map Prod.fst).toFinset :=
    Finset.eq_of_subset_of_card_le hsub (by rw [Finset.card_range]; exact hcardle)
  have hcard : (s.pluralValues.map Prod.fst).toFinset.card
      = (s.pluralValues.map Prod.fst).length := by
    rw [← heqset, Finset.card_range, hkeylen]
  have hnodup : (s.pluralValues.map Prod.fst).Nodup := by
    have hd : (s.pluralValues.map Prod.fst).dedup.length
        = (s.pluralValues.map Prod.fst).length := by
      rw [← List.card_toFinset, hcard]
    have hde : (s.pluralValues.map Prod.fst).dedup = s.pluralValues.map Prod.fst :=
      (List.dedup_sublist _).eq_of_length hd
    rw [← hde]
    exact List.nodup_dedup _
  refine ⟨⟨hnodup, heqset.symm, ?_, ?_⟩, by rfl⟩
  · show pvs.length = s.maxPluralIndex + 1
    rw [hlenpvs, hL]
  · show pvs ≠ [] ↔ s.shouldBePlural = true
    refine ⟨fun _ => hsb, fun _ => ?_⟩
    have : 0 < pvs.length := by omega
    exact List.length_pos.mp this

def demoPluralLines : List Line :=
  [kwValueLine "msgid" "foo", kwValueLine "msgid_plural" "foos", idxValueLine "msgstr" 0 "bar"]

def stateOrDefault (r : DRes PEState) : PEState :=
  match r with
  | .ok s => s
  | _ => {}

def entryOrDefault (r : DRes Entry) : Entry :=
  match r with
  | .ok e => e
  | _ =>
    { Header := { References := [], Flags := [] }, IsObsolete := false
      Context := "", Id := "", Value := "", PluralId := "", PluralValues := []
      Lines := [], EntryKey := { Context := "", Id := "" }, IsContextual := false }

theorem plural_indices_contiguous_witness :
    peLoop {} demoPluralLines = .ok (stateOrDefault (peLoop {} demoPluralLines))
    ∧ ParseEntry demoPluralLines = .ok (entryOrDefault (ParseEntry demoPluralLines))
    ∧ ((((stateOrDefault (peLoop {} demoPluralLines)).pluralValues.map Prod.fst).Nodup
        ∧ ((stateOrDefault (peLoop {} demoPluralLines)).pluralValues.map Prod.fst).toFinset
            = Finset.range ((stateOrDefault (peLoop {} demoPluralLines)).maxPluralIndex + 1)
        ∧ (entryOrDefault (ParseEntry demoPluralLines)).PluralValues.length
            = (stateOrDefault (peLoop {} demoPluralLines)).maxPluralIndex + 1
        ∧ ((entryOrDefault (ParseEntry demoPluralLines)).PluralValues ≠ []
            ↔ (stateOrDefault (peLoop {} demoPluralLines)).shouldBePlural = true))
       ∧ ParseEntry [kwValueLine "msgid" "bar", kwValueLine "msgid_plural" "bars"]
           = .err (.entryParse pluralCountZeroMsg)) :=
  ⟨rfl, rfl,
    plural_indices_exactly_contiguous_range demoPluralLines
      (stateOrDefault (peLoop {} demoPluralLines))
      (entryOrDefault (ParseEntry demoPluralLines)) rfl rfl⟩
